import Mathlib

/-!
Verification of the fresh chat server against its specification.

This file gives a shallow embedding, in Lean 4, of the parts of the
fresh repository (a multi-room TCP chat service written in Rust) that
the checked claims are about, together with theorems settling each
claim.  The embedding follows the source files:

  src/common/src/util.rs    - name normalization (collapse)
  src/common/src/proto.rs   - wire protocol messages (Sndr, Rcvr, Env)
  src/common/src/socket.rs  - framed JSON decoding (Sock::try_get,
                              get_actual_offset)
  src/common/src/user.rs    - sessions (User::try_get, quota, blocks)
  src/common/src/room.rs    - rooms (membership, bans, invites, outbox)
  src/server/src/processing.rs - command handlers and process_room
  src/server/src/main.rs    - the dispatcher main loop

Modelling conventions, used throughout:

* Rust u64 / usize become Nat; `Instant` becomes a Nat count of
  milliseconds and `Duration` a Nat; byte buffers become `List Nat`.
* `HashMap` becomes an association list with the Rust insert
  (replace) / remove semantics; iteration order of such a map is
  arbitrary in Rust and is the list order here.
* The behaviour of the external serde_json library is modelled by an
  executable scanner / parser over bytes whose error classification
  (incomplete data, syntax error with a 1-based line and column,
  other) mirrors the behaviour the socket code relies on.  Interior
  syntax validation of bracketed values is coarser than serde_json
  (both end in the same fatal-error outcome in Sock::try_get).
* The Unicode tables consulted by the external unicode-normalization
  crate and by Rust char methods (lowercase, alphabetic, whitespace,
  canonical combining class, canonical decomposition) are embedded as
  explicit fragments that are exact on every character appearing in
  the theorems below (the whole White_Space table is exact).
* Envelope payloads are modelled at message granularity: an `Env`
  carries the `Sndr` it encodes rather than its JSON bytes, and a
  session send buffer is a list of queued messages; bytes written to
  the network by a flush move onto a `wire` list, so the sequence of
  messages ever sent to a session is `wire ++ sendq`.
* Error strings follow the source; the few that contain an
  apostrophe are rendered without it.
-/

set_option maxHeartbeats 1000000
set_option linter.unusedVariables false

namespace Fresh

/-! ## Association-list maps

Model of std::collections::HashMap as used by the server: the four
dispatcher indexes.  `insertA` has Rust insert semantics (replace any
existing binding), `removeA` removes a binding, `lookupA` finds one.
-/

/-- Look up a key in an association list (HashMap::get). -/
def lookupA {α β : Type} [DecidableEq α] (l : List (α × β)) (k : α) : Option β :=
  match l with
  | [] => none
  | p :: rest => if p.1 = k then some p.2 else lookupA rest k

/-- Remove a key from an association list (HashMap::remove, dropping the value). -/
def removeA {α β : Type} [DecidableEq α] (l : List (α × β)) (k : α) : List (α × β) :=
  l.filter (fun p => p.1 ≠ k)

/-- Insert a binding, replacing any existing one (HashMap::insert). -/
def insertA {α β : Type} [DecidableEq α] (l : List (α × β)) (k : α) (v : β) :
    List (α × β) :=
  (k, v) :: removeA l k

/-- Check whether a key is bound (HashMap::contains_key). -/
def containsA {α β : Type} [DecidableEq α] (l : List (α × β)) (k : α) : Bool :=
  (lookupA l k).isSome

deriving instance DecidableEq for Except

/-- Keys of an association list. -/
def keysA {α β : Type} (l : List (α × β)) : List α :=
  l.map Prod.fst

/-! ## Name normalization (src/common/src/util.rs, fn collapse)

The Rust code is

  let trimmed = s.trim();
  let lowercase = trimmed.to_lowercase();
  let without_diacritics: String = lowercase
      .nfd()
      .filter(|c| c.is_ascii() || !c.is_alphabetic())
      .collect();
  let collapsed: String = without_diacritics
      .split_whitespace()
      .collect::<Vec<&str>>()
      .concat();

The Unicode-dependent pieces (char::is_whitespace, str::to_lowercase,
char::is_alphabetic, and the canonical decomposition / canonical
ordering performed by the unicode-normalization crate nfd adapter) are
modelled by the explicit table fragments below.
-/

/-- Model of Rust char::is_whitespace: the complete Unicode White_Space
set. -/
def isWs (c : Char) : Bool :=
  let n := c.toNat
  n = 0x20 || (0x9 ≤ n && n ≤ 0xD) || n = 0x85 || n = 0xA0 || n = 0x1680 ||
    (0x2000 ≤ n && n ≤ 0x200A) || n = 0x2028 || n = 0x2029 || n = 0x202F ||
    n = 0x205F || n = 0x3000

/-- Model of the per-character lowercase mapping used by
str::to_lowercase: exact on ASCII; identity on every other character
appearing in this development (combining marks and U+3042 have no
lowercase mapping). -/
def lowerChar (c : Char) : Char :=
  if 0x41 ≤ c.toNat ∧ c.toNat ≤ 0x5A then Char.ofNat (c.toNat + 0x20) else c

/-- Model of Rust char::is_alphabetic (the Alphabetic property): exact
on ASCII; beyond ASCII it is an explicit fragment containing the
characters used in this development (U+3042 HIRAGANA LETTER A is
Alphabetic; the combining marks U+0301 and U+0316 are not). -/
def isAlpha (c : Char) : Bool :=
  let n := c.toNat
  (0x41 ≤ n && n ≤ 0x5A) || (0x61 ≤ n && n ≤ 0x7A) || n = 0x3042

/-- Model of the Unicode canonical combining class: an explicit
fragment, exact on the characters used in this development (ASCII and
U+3042 have class 0, U+0301 has class 230, U+0316 has class 220). -/
def ccc (c : Char) : Nat :=
  if c.toNat = 0x301 then 230 else if c.toNat = 0x316 then 220 else 0

/-- Model of the Unicode canonical decomposition: an explicit fragment,
exact on the characters used in this development (none of which
decompose). -/
def decomp (c : Char) : List Char :=
  [c]

/-- Stable insertion into a run of combining marks by combining class
(part of the canonical-ordering pass of NFD). -/
def cccInsert (c : Char) : List Char → List Char
  | [] => [c]
  | d :: ds => if ccc d ≤ ccc c then d :: cccInsert c ds else c :: d :: ds

/-- Stable sort of a run of combining marks by combining class. -/
def cccSort : List Char → List Char
  | [] => []
  | c :: cs => cccInsert c (cccSort cs)

/-- Canonical-ordering pass of NFD: each maximal run of characters with
nonzero combining class is stably sorted by combining class.  The run
being accumulated is passed along. -/
def reorderGo (run : List Char) : List Char → List Char
  | [] => cccSort run
  | c :: cs =>
    if ccc c = 0 then cccSort run ++ c :: reorderGo [] cs
    else reorderGo (run ++ [c]) cs

/-- Model of the nfd() adapter of the unicode-normalization crate:
canonical decomposition followed by canonical ordering. -/
def nfd (l : List Char) : List Char :=
  reorderGo [] (l.flatMap decomp)

/-- Model of str::trim: strip leading and trailing whitespace. -/
def trimL (l : List Char) : List Char :=
  ((l.dropWhile isWs).reverse.dropWhile isWs).reverse

/-- Model of str::split_whitespace: split into the maximal runs of
non-whitespace characters.  The run being accumulated is passed
along. -/
def splitWsGo (run : List Char) : List Char → List (List Char)
  | [] => if run = [] then [] else [run]
  | c :: cs =>
    if isWs c then
      if run = [] then splitWsGo [] cs else run :: splitWsGo [] cs
    else splitWsGo (run ++ [c]) cs

/-- Model of fn collapse on a list of characters: trim, lowercase,
NFD, drop non-ASCII alphabetic characters, and concatenate the
whitespace-split words. -/
def collapseL (l : List Char) : List Char :=
  let trimmed := trimL l
  let lowercase := trimmed.map lowerChar
  let without := (nfd lowercase).filter (fun c => c.toNat < 128 || !(isAlpha c))
  (splitWsGo [] without).flatten

/-- Model of fn collapse (src/common/src/util.rs). -/
def collapse (s : String) : String :=
  ⟨collapseL s.data⟩

/-! ## Wire protocol messages (src/common/src/proto.rs)

enum SndOp and enum Sndr are the serialized sum types; enum RcvOp and
enum Rcvr their owned deserialized counterparts.  Borrowed str slices
and slices of slices become String and List String.
-/

/-- Room operator subcommands (enum SndOp). -/
inductive SndOp : Type where
  | Open : SndOp
  | Close : SndOp
  | Kick : String → SndOp
  | Invite : String → SndOp
  | Give : String → SndOp
deriving DecidableEq

/-- Protocol messages as serialized (enum Sndr). -/
inductive Sndr : Type where
  | Text : String → List String → Sndr
  | Ping : Sndr
  | Priv : String → String → Sndr
  | Logout : String → Sndr
  | Name : String → Sndr
  | Join : String → Sndr
  | Query : String → String → Sndr
  | Block : String → Sndr
  | Unblock : String → Sndr
  | Op : SndOp → Sndr
  | Info : String → Sndr
  | Err : String → Sndr
  | Misc : String → List String → String → Sndr
deriving DecidableEq

/-- Room operator subcommands as deserialized (enum RcvOp). -/
inductive RcvOp : Type where
  | Open : RcvOp
  | Close : RcvOp
  | Kick : String → RcvOp
  | Invite : String → RcvOp
  | Give : String → RcvOp
deriving DecidableEq

/-- Protocol messages as deserialized (enum Rcvr).  The field names of
the struct variants are, in order: Text who lines, Priv who text,
Query what arg, Misc what data alt. -/
inductive Rcvr : Type where
  | Text : String → List String → Rcvr
  | Ping : Rcvr
  | Priv : String → String → Rcvr
  | Logout : String → Rcvr
  | Name : String → Rcvr
  | Join : String → Rcvr
  | Query : String → String → Rcvr
  | Block : String → Rcvr
  | Unblock : String → Rcvr
  | Op : RcvOp → Rcvr
  | Info : String → Rcvr
  | Err : String → Rcvr
  | Misc : String → List String → String → Rcvr
deriving DecidableEq

/-- The deserialized counterpart of a SndOp value. -/
def rcvOfSndOp : SndOp → RcvOp
  | .Open => .Open
  | .Close => .Close
  | .Kick s => .Kick s
  | .Invite s => .Invite s
  | .Give s => .Give s

/-- The deserialized counterpart of a Sndr value: the same variant with
the same content. -/
def rcvrOfSndr : Sndr → Rcvr
  | .Text who lines => .Text who lines
  | .Ping => .Ping
  | .Priv who text => .Priv who text
  | .Logout s => .Logout s
  | .Name s => .Name s
  | .Join s => .Join s
  | .Query what arg => .Query what arg
  | .Block s => .Block s
  | .Unblock s => .Unblock s
  | .Op o => .Op (rcvOfSndOp o)
  | .Info s => .Info s
  | .Err s => .Err s
  | .Misc what data alt => .Misc what data alt

/-- Rcvr::counts: the message kinds whose decoded size is charged to
the byte quota. -/
def Rcvr.counts : Rcvr → Bool
  | .Text _ _ => true
  | .Priv _ _ => true
  | .Name _ => true
  | .Join _ => true
  | _ => false

/-! ## JSON values and the serde data model

Serialization of Sndr and deserialization of Rcvr are produced by
serde derive with external enum tagging.  They are modelled at the
level of JSON values: sndrToJson is the value written by
serde_json::to_vec_pretty via the derived Serialize, and rcvrFromJson
is the derived Deserialize (a unit variant accepts its name as a bare
string; a struct variant reads its named fields in any order, applies
serde(default) to Text.who, and ignores unknown fields; a map with a
variant tag must have exactly that single key).
-/

/-- JSON values. -/
inductive Json : Type where
  | null : Json
  | bool : Bool → Json
  | num : Int → Json
  | str : String → Json
  | arr : List Json → Json
  | obj : List (String × Json) → Json

/-- Serialization of a SndOp as a JSON value (external tagging). -/
def sndOpToJson : SndOp → Json
  | .Open => .str "Open"
  | .Close => .str "Close"
  | .Kick s => .obj [("Kick", .str s)]
  | .Invite s => .obj [("Invite", .str s)]
  | .Give s => .obj [("Give", .str s)]

/-- Serialization of a Sndr as a JSON value (external tagging, field
order as declared). -/
def sndrToJson : Sndr → Json
  | .Text who lines =>
    .obj [("Text", .obj [("who", .str who), ("lines", .arr (lines.map Json.str))])]
  | .Ping => .str "Ping"
  | .Priv who text =>
    .obj [("Priv", .obj [("who", .str who), ("text", .str text)])]
  | .Logout s => .obj [("Logout", .str s)]
  | .Name s => .obj [("Name", .str s)]
  | .Join s => .obj [("Join", .str s)]
  | .Query what arg =>
    .obj [("Query", .obj [("what", .str what), ("arg", .str arg)])]
  | .Block s => .obj [("Block", .str s)]
  | .Unblock s => .obj [("Unblock", .str s)]
  | .Op o => .obj [("Op", sndOpToJson o)]
  | .Info s => .obj [("Info", .str s)]
  | .Err s => .obj [("Err", .str s)]
  | .Misc what data alt =>
    .obj [("Misc", .obj [("what", .str what), ("data", .arr (data.map Json.str)),
                         ("alt", .str alt)])]

/-- Read a string field of a struct variant (first occurrence wins;
duplicates do not arise from the serializer). -/
def getStrField (fields : List (String × Json)) (k : String) : Option String :=
  match lookupA fields k with
  | some (.str s) => some s
  | _ => none

/-- Read a list-of-strings field of a struct variant. -/
def jsonStrList : List Json → Option (List String)
  | [] => some []
  | .str s :: rest =>
    match jsonStrList rest with
    | some l => some (s :: l)
    | none => none
  | _ => none

/-- Read an array-of-strings field of a struct variant. -/
def getStrListField (fields : List (String × Json)) (k : String) :
    Option (List String) :=
  match lookupA fields k with
  | some (.arr xs) => jsonStrList xs
  | _ => none

/-- Deserialization of a RcvOp from a JSON value (derived Deserialize,
external tagging). -/
def rcvOpFromJson : Json → Option RcvOp
  | .str v =>
    if v = "Open" then some .Open
    else if v = "Close" then some .Close
    else none
  | .obj [(tag, content)] =>
    match content with
    | .str s =>
      if tag = "Kick" then some (.Kick s)
      else if tag = "Invite" then some (.Invite s)
      else if tag = "Give" then some (.Give s)
      else none
    | _ => none
  | _ => none

/-- Deserialization of a Rcvr from a JSON value (derived Deserialize,
external tagging; Text.who carries serde(default)). -/
def rcvrFromJson : Json → Option Rcvr
  | .str v => if v = "Ping" then some .Ping else none
  | .obj [(tag, content)] =>
    if tag = "Text" then
      match content with
      | .obj fields =>
        match getStrListField fields "lines" with
        | some lines =>
          some (.Text ((getStrField fields "who").getD "") lines)
        | none => none
      | _ => none
    else if tag = "Priv" then
      match content with
      | .obj fields =>
        match getStrField fields "who", getStrField fields "text" with
        | some who, some text => some (.Priv who text)
        | _, _ => none
      | _ => none
    else if tag = "Logout" then
      match content with
      | .str s => some (.Logout s)
      | _ => none
    else if tag = "Name" then
      match content with
      | .str s => some (.Name s)
      | _ => none
    else if tag = "Join" then
      match content with
      | .str s => some (.Join s)
      | _ => none
    else if tag = "Query" then
      match content with
      | .obj fields =>
        match getStrField fields "what", getStrField fields "arg" with
        | some what, some arg => some (.Query what arg)
        | _, _ => none
      | _ => none
    else if tag = "Block" then
      match content with
      | .str s => some (.Block s)
      | _ => none
    else if tag = "Unblock" then
      match content with
      | .str s => some (.Unblock s)
      | _ => none
    else if tag = "Op" then
      match rcvOpFromJson content with
      | some o => some (.Op o)
      | none => none
    else if tag = "Info" then
      match content with
      | .str s => some (.Info s)
      | _ => none
    else if tag = "Err" then
      match content with
      | .str s => some (.Err s)
      | _ => none
    else if tag = "Misc" then
      match content with
      | .obj fields =>
        match getStrField fields "what", getStrListField fields "data",
              getStrField fields "alt" with
        | some what, some data, some alt => some (.Misc what data alt)
        | _, _, _ => none
      | _ => none
    else none
  | _ => none

/-! ## Byte-level framing (src/common/src/socket.rs and the serde_json
text layer)

Sock::try_get feeds the accumulated receive buffer to
serde_json::from_slice and classifies failures: end-of-file means the
buffered data is an incomplete prefix of a value (keep buffering); a
syntax error carries a 1-based line and column which get_actual_offset
converts back to a byte offset so that the leading complete value can
be sliced off; anything else is fatal.  The text layer is modelled by
a byte-level scanner that finds the end of the first complete JSON
value (objects, arrays and strings are self-delimiting; primitive
tokens end at the first non-token byte or at the end of input),
followed by an executable JSON parser for the value itself.  Where the
buffered data is a malformed value inside balanced brackets the
scanner is coarser than serde_json, and both the model and the code
reach the same fatal-error outcome through different intermediate
classifications.
-/

/-- Bytes are modelled as natural numbers. -/
abbrev Byte := Nat

/-- The newline byte (const NEWLINE in socket.rs). -/
def NEWLINE : Byte := 10

/-- JSON insignificant whitespace bytes. -/
def jsonWsB (b : Byte) : Bool :=
  b = 32 || b = 9 || b = 10 || b = 13

/-- Opening bracket bytes (left brace and left square bracket). -/
def openB (b : Byte) : Bool :=
  b = 123 || b = 91

/-- Closing bracket bytes (right brace and right square bracket). -/
def closeB (b : Byte) : Bool :=
  b = 125 || b = 93

/-- Bytes that may continue a primitive JSON token (number or
identifier): letters, digits, dot, plus, minus. -/
def primB (b : Byte) : Bool :=
  (48 ≤ b && b ≤ 57) || (65 ≤ b && b ≤ 90) || (97 ≤ b && b ≤ 122) ||
    b = 46 || b = 43 || b = 45

/-- States of the scanner that finds the end of the first complete
JSON value: before the value, inside brackets (with nesting depth),
inside a string within brackets, after a backslash in such a string,
inside a top-level string, after a backslash there, or inside a
top-level primitive token. -/
inductive SMode : Type where
  | lead : SMode
  | brk : Nat → SMode
  | brkStr : Nat → SMode
  | brkEsc : Nat → SMode
  | str : SMode
  | strEsc : SMode
  | prim : SMode
deriving DecidableEq

/-- Result of the scanner: the first complete value occupies bytes
[0, n), or the data is an incomplete prefix, or there is a syntax
error at byte index i. -/
inductive ScanR : Type where
  | done : Nat → ScanR
  | incomplete : ScanR
  | bad : Nat → ScanR
deriving DecidableEq

/-- One byte of the scanner: either the next state or a terminal
result.  scanGo below consumes bytes through this step function
(theorem scanGo_cons). -/
def scanStep (st : SMode) (i : Nat) (b : Byte) : SMode ⊕ ScanR :=
  match st with
  | .lead =>
    if jsonWsB b then .inl .lead
    else if openB b then .inl (.brk 1)
    else if b = 34 then .inl .str
    else if primB b then .inl .prim
    else .inr (.bad i)
  | .brk d =>
    if openB b then .inl (.brk (d + 1))
    else if closeB b then
      if d ≤ 1 then .inr (.done (i + 1)) else .inl (.brk (d - 1))
    else if b = 34 then .inl (.brkStr d)
    else .inl (.brk d)
  | .brkStr d =>
    if b = 34 then .inl (.brk d)
    else if b = 92 then .inl (.brkEsc d)
    else .inl (.brkStr d)
  | .brkEsc d => .inl (.brkStr d)
  | .str =>
    if b = 34 then .inr (.done (i + 1))
    else if b = 92 then .inl .strEsc
    else .inl .str
  | .strEsc => .inl .str
  | .prim => if primB b then .inl .prim else .inr (.done i)

/-- The scanner.  The Nat argument is the index of the next byte. -/
def scanGo : SMode → Nat → List Byte → ScanR
  | .lead, _, [] => .incomplete
  | .lead, i, b :: bs =>
    if jsonWsB b then scanGo .lead (i + 1) bs
    else if openB b then scanGo (.brk 1) (i + 1) bs
    else if b = 34 then scanGo .str (i + 1) bs
    else if primB b then scanGo .prim (i + 1) bs
    else .bad i
  | .brk _, _, [] => .incomplete
  | .brk d, i, b :: bs =>
    if openB b then scanGo (.brk (d + 1)) (i + 1) bs
    else if closeB b then
      if d ≤ 1 then .done (i + 1) else scanGo (.brk (d - 1)) (i + 1) bs
    else if b = 34 then scanGo (.brkStr d) (i + 1) bs
    else scanGo (.brk d) (i + 1) bs
  | .brkStr _, _, [] => .incomplete
  | .brkStr d, i, b :: bs =>
    if b = 34 then scanGo (.brk d) (i + 1) bs
    else if b = 92 then scanGo (.brkEsc d) (i + 1) bs
    else scanGo (.brkStr d) (i + 1) bs
  | .brkEsc _, _, [] => .incomplete
  | .brkEsc d, i, _ :: bs => scanGo (.brkStr d) (i + 1) bs
  | .str, _, [] => .incomplete
  | .str, i, b :: bs =>
    if b = 34 then .done (i + 1)
    else if b = 92 then scanGo .strEsc (i + 1) bs
    else scanGo .str (i + 1) bs
  | .strEsc, _, [] => .incomplete
  | .strEsc, i, _ :: bs => scanGo .str (i + 1) bs
  | .prim, i, [] => .done i
  | .prim, i, b :: bs => if primB b then scanGo .prim (i + 1) bs else .done i

/-- Index of the first byte of a list that is not JSON whitespace, if
any. -/
def fnw : List Byte → Option Nat
  | [] => none
  | b :: bs => if jsonWsB b then (fnw bs).map (· + 1) else some 0

/-- Index of the first non-whitespace byte at or after index n, if
any (how serde_json looks for trailing characters after a value). -/
def firstNonWs (dat : List Byte) (n : Nat) : Option Nat :=
  (fnw (dat.drop n)).map (n + ·)

/-- Model of the serde_json position of byte index i in a buffer: the
1-based line (1 plus the number of newline bytes before i) and the
1-based column in bytes since the start of the line. -/
def posOf : List Byte → Nat → Nat × Nat
  | _, 0 => (1, 1)
  | [], _ + 1 => (1, 1)
  | b :: bs, i + 1 =>
    let p := posOf bs i
    if b = NEWLINE then (p.1 + 1, p.2)
    else if p.1 = 1 then (1, p.2 + 1) else p

/-- Number of newline bytes among the first i bytes. -/
def countNLTake : List Byte → Nat → Nat
  | _, 0 => 0
  | [], _ + 1 => 0
  | b :: bs, i + 1 => (if b = NEWLINE then 1 else 0) + countNLTake bs i

/-- Length of the shortest prefix containing k newline bytes (the
index just after the k-th newline). -/
def nlAfter : List Byte → Nat → Nat
  | _, 0 => 0
  | [], _ + 1 => 0
  | b :: bs, k + 1 =>
    if b = NEWLINE then 1 + nlAfter bs k else 1 + nlAfter bs (k + 1)

/-- Loop of fn get_actual_offset: walk the buffer counting newlines
until the required number have passed, returning the index just after
them; None when the buffer runs out first. -/
def gaoLoop (line : Nat) : List Byte → Nat → Nat → Option Nat
  | [], n, ln => if ln < line then none else some n
  | b :: bs, n, ln =>
    if ln < line then gaoLoop line bs (n + 1) (if b = NEWLINE then ln + 1 else ln)
    else some n

/-- Model of fn get_actual_offset (src/common/src/socket.rs): convert
the 1-based (line, column) of a serde_json syntax error back into a
byte offset into the buffer; fails when the location lies past the
buffered bytes. -/
def get_actual_offset (dat : List Byte) (line col : Nat) : Except String Nat :=
  match gaoLoop (line - 1) dat 0 0 with
  | none => .error "Overran buffer seeking error location."
  | some v => .ok (v + (col - 1))

/-- Skip JSON whitespace. -/
def skipWsB (dat : List Byte) : List Byte :=
  dat.dropWhile jsonWsB

/-- Value of a hexadecimal digit byte. -/
def hexVal (b : Byte) : Option Nat :=
  if 48 ≤ b ∧ b ≤ 57 then some (b - 48)
  else if 97 ≤ b ∧ b ≤ 102 then some (b - 87)
  else if 65 ≤ b ∧ b ≤ 70 then some (b - 55)
  else none

/-- Parse the remainder of a JSON string literal (after the opening
quote): processes escapes and decodes UTF-8; returns the characters
and the bytes after the closing quote.  Fuel-indexed. -/
def parseStrBytes : Nat → List Byte → Option (List Char × List Byte)
  | 0, _ => none
  | _, [] => none
  | fuel + 1, b :: bs =>
    if b = 34 then some ([], bs)
    else if b = 92 then
      match bs with
      | [] => none
      | e :: rest =>
        let esc : Option (Char × List Byte) :=
          if e = 34 then some (Char.ofNat 34, rest)
          else if e = 92 then some (Char.ofNat 92, rest)
          else if e = 47 then some (Char.ofNat 47, rest)
          else if e = 98 then some (Char.ofNat 8, rest)
          else if e = 102 then some (Char.ofNat 12, rest)
          else if e = 110 then some (Char.ofNat 10, rest)
          else if e = 114 then some (Char.ofNat 13, rest)
          else if e = 116 then some (Char.ofNat 9, rest)
          else if e = 117 then
            match rest with
            | h1 :: h2 :: h3 :: h4 :: r2 =>
              match hexVal h1, hexVal h2, hexVal h3, hexVal h4 with
              | some v1, some v2, some v3, some v4 =>
                some (Char.ofNat (((v1 * 16 + v2) * 16 + v3) * 16 + v4), r2)
              | _, _, _, _ => none
            | _ => none
          else none
        match esc with
        | some (c, r2) =>
          match parseStrBytes fuel r2 with
          | some (cs, r3) => some (c :: cs, r3)
          | none => none
        | none => none
    else if b < 128 then
      match parseStrBytes fuel bs with
      | some (cs, r2) => some (Char.ofNat b :: cs, r2)
      | none => none
    else if 192 ≤ b ∧ b ≤ 223 then
      match bs with
      | c1 :: r1 =>
        if 128 ≤ c1 ∧ c1 ≤ 191 then
          match parseStrBytes fuel r1 with
          | some (cs, r2) => some (Char.ofNat ((b - 192) * 64 + (c1 - 128)) :: cs, r2)
          | none => none
        else none
      | _ => none
    else if 224 ≤ b ∧ b ≤ 239 then
      match bs with
      | c1 :: c2 :: r1 =>
        if 128 ≤ c1 ∧ c1 ≤ 191 ∧ 128 ≤ c2 ∧ c2 ≤ 191 then
          match parseStrBytes fuel r1 with
          | some (cs, r2) =>
            some (Char.ofNat (((b - 224) * 64 + (c1 - 128)) * 64 + (c2 - 128)) :: cs, r2)
          | none => none
        else none
      | _ => none
    else if 240 ≤ b ∧ b ≤ 247 then
      match bs with
      | c1 :: c2 :: c3 :: r1 =>
        if 128 ≤ c1 ∧ c1 ≤ 191 ∧ 128 ≤ c2 ∧ c2 ≤ 191 ∧ 128 ≤ c3 ∧ c3 ≤ 191 then
          match parseStrBytes fuel r1 with
          | some (cs, r2) =>
            some (Char.ofNat ((((b - 240) * 64 + (c1 - 128)) * 64 + (c2 - 128)) * 64
              + (c3 - 128)) :: cs, r2)
          | none => none
        else none
      | _ => none
    else none

/-- Parse the digits of a JSON number (value approximated by its
integer part, which suffices: no protocol message carries numbers). -/
def parseDigits : List Byte → Nat → Nat × List Byte
  | [], acc => (acc, [])
  | b :: bs, acc =>
    if 48 ≤ b ∧ b ≤ 57 then parseDigits bs (acc * 10 + (b - 48)) else (acc, b :: bs)

/-- Consume the fraction and exponent tail of a JSON number. -/
def skipNumTail (dat : List Byte) : List Byte :=
  dat.dropWhile (fun b => (48 ≤ b && b ≤ 57) || b = 46 || b = 101 || b = 69 ||
    b = 43 || b = 45)

mutual

/-- Parse one JSON value, returning it and the remaining bytes.
Fuel-indexed executable recursive-descent parser. -/
def parseVal : Nat → List Byte → Option (Json × List Byte)
  | 0, _ => none
  | fuel + 1, dat =>
    match skipWsB dat with
    | [] => none
    | b :: bs =>
      if b = 123 then
        match skipWsB bs with
        | 125 :: r2 => some (.obj [], r2)
        | r1 =>
          match parseObjItems fuel r1 with
          | some (fields, r2) => some (.obj fields, r2)
          | none => none
      else if b = 91 then
        match skipWsB bs with
        | 93 :: r2 => some (.arr [], r2)
        | r1 =>
          match parseArrItems fuel r1 with
          | some (items, r2) => some (.arr items, r2)
          | none => none
      else if b = 34 then
        match parseStrBytes (fuel + 1) bs with
        | some (cs, r2) => some (.str ⟨cs⟩, r2)
        | none => none
      else if b = 116 then
        match bs with
        | 114 :: 117 :: 101 :: r2 => some (.bool true, r2)
        | _ => none
      else if b = 102 then
        match bs with
        | 97 :: 108 :: 115 :: 101 :: r2 => some (.bool false, r2)
        | _ => none
      else if b = 110 then
        match bs with
        | 117 :: 108 :: 108 :: r2 => some (.null, r2)
        | _ => none
      else if b = 45 then
        match bs with
        | d :: _ =>
          if 48 ≤ d ∧ d ≤ 57 then
            let p := parseDigits bs 0
            some (.num (-(Int.ofNat p.1)), skipNumTail p.2)
          else none
        | [] => none
      else if 48 ≤ b ∧ b ≤ 57 then
        let p := parseDigits (b :: bs) 0
        some (.num (Int.ofNat p.1), skipNumTail p.2)
      else none

/-- Parse the members of a JSON object after its opening brace (first
member expected next), through the closing brace. -/
def parseObjItems : Nat → List Byte → Option (List (String × Json) × List Byte)
  | 0, _ => none
  | fuel + 1, dat =>
    match skipWsB dat with
    | 34 :: r1 =>
      match parseStrBytes (fuel + 1) r1 with
      | some (k, r2) =>
        match skipWsB r2 with
        | 58 :: r3 =>
          match parseVal fuel r3 with
          | some (v, r4) =>
            match skipWsB r4 with
            | 44 :: r5 =>
              match parseObjItems fuel r5 with
              | some (fields, r6) => some ((⟨k⟩, v) :: fields, r6)
              | none => none
            | 125 :: r5 => some ([(⟨k⟩, v)], r5)
            | _ => none
          | none => none
        | _ => none
      | none => none
    | _ => none

/-- Parse the items of a JSON array after its opening bracket (first
item expected next), through the closing bracket. -/
def parseArrItems : Nat → List Byte → Option (List Json × List Byte)
  | 0, _ => none
  | fuel + 1, dat =>
    match parseVal fuel dat with
    | some (v, r1) =>
      match skipWsB r1 with
      | 44 :: r2 =>
        match parseArrItems fuel r2 with
        | some (items, r3) => some (v :: items, r3)
        | none => none
      | 93 :: r2 => some ([v], r2)
      | _ => none
    | none => none

end

/-- Parse a byte buffer as exactly one JSON value (with surrounding
whitespace). -/
def parseJson (dat : List Byte) : Option Json :=
  match parseVal (2 * dat.length + 8) dat with
  | some (v, rest) => if skipWsB rest = [] then some v else none
  | none => none

/-- Classification of a serde_json::from_slice::<Rcvr> call, as
consumed by Sock::try_get: a decoded message, end-of-file (incomplete
data), a syntax error at a 1-based line and column, or any other
(fatal) error. -/
inductive DecodeRes : Type where
  | ok : Rcvr → DecodeRes
  | eof : DecodeRes
  | synErr : Nat → Nat → DecodeRes
  | dataErr : DecodeRes
deriving DecidableEq

/-- Model of serde_json::from_slice::<Rcvr> on a byte buffer: scan for
the first complete value; incomplete data is an end-of-file error;
non-whitespace bytes after the value are a syntax error located at the
first such byte; otherwise the value is parsed and mapped into a Rcvr
(failure of either being a fatal error). -/
def fromSlice (dat : List Byte) : DecodeRes :=
  match scanGo .lead 0 dat with
  | .incomplete => .eof
  | .bad i => .synErr (posOf dat i).1 (posOf dat i).2
  | .done n =>
    match firstNonWs dat n with
    | some i => .synErr (posOf dat i).1 (posOf dat i).2
    | none =>
      match parseJson (dat.take n) with
      | some v =>
        match rcvrFromJson v with
        | some m => .ok m
        | none => .dataErr
      | none => .dataErr

/-- Outcome of Sock::try_get: a decoded message (Ok(Some)), nothing
yet (Ok(None)), a SockError (Err), or a crash of the process (the
unwrap of get_actual_offset panicking). -/
inductive TGRes : Type where
  | got : Rcvr → TGRes
  | pending : TGRes
  | sockErr : TGRes
  | crash : TGRes
deriving DecidableEq

/-- Logic of Sock::try_get (src/common/src/socket.rs) given the
classified result of the first from_slice call on the receive buffer:
on success the buffer is cleared; end-of-file leaves it untouched and
yields nothing; on a syntax error the offset is recovered -- by an
unwrap, so a failed recovery crashes -- and the leading slice is
re-parsed, the remainder becoming the new buffer; everything else is a
SockError.  Returns the outcome and the new buffer. -/
def tryGetCore (cur : List Byte) (res : DecodeRes) : TGRes × List Byte :=
  match res with
  | .ok m => (.got m, [])
  | .eof => (.pending, cur)
  | .dataErr => (.sockErr, cur)
  | .synErr line col =>
    match get_actual_offset cur line col with
    | .error _ => (.crash, cur)
    | .ok offs =>
      match fromSlice (cur.take offs) with
      | .ok m => (.got m, cur.drop offs)
      | _ => (.sockErr, cur)

/-- Model of Sock::try_get on a receive buffer. -/
def sockTryGet (cur : List Byte) : TGRes × List Byte :=
  tryGetCore cur (fromSlice cur)

/-! ## Envelopes (src/common/src/proto.rs, End and Env)

An Env wraps an encoded message with routing metadata.  Here the
payload is the message itself rather than its encoding (see the file
header).
-/

/-- Routing endpoints (enum End). -/
inductive End : Type where
  | user : Nat → End
  | room : Nat → End
  | server : End
  | all : End
deriving DecidableEq

/-- An envelope: source, destination and the wrapped message (struct
Env; the data field holds msg.bytes() in the source). -/
structure Env : Type where
  source : End
  dest : End
  msg : Sndr
deriving DecidableEq

/-! ## Sessions (src/common/src/user.rs, struct User, plus the socket
buffers of its Sock)

The socket read scratch buffer is irrelevant here (reads arrive as
explicit inputs); the receive buffer is `current`, the send buffer is
the queue `sendq`, and `wire` records what flushes have pushed to the
network, so `wire ++ sendq` is the full sequence of messages sent
toward the session.
-/

/-- Per-connection session state. -/
structure UserSt : Type where
  name : String
  idn : Nat
  idstr : String
  bytes_sucked : Nat
  quota_bytes : Nat
  last_data_time : Nat
  errs : Nat
  blocks : List Nat
  current : List Byte
  sendq : List Sndr
  wire : List Sndr
  addr : Option String
  shut : Bool
deriving DecidableEq

/-- Result of one nonblocking socket read (Sock::suck): an I/O error,
or the bytes that arrived (empty on would-block). -/
inductive SuckInput : Type where
  | err : SuckInput
  | ok : List Byte → SuckInput
deriving DecidableEq

/-- Result of one nonblocking socket write (Sock::blow, as driven by
User::nudge): everything written, nothing written, or an I/O error. -/
inductive FlushInput : Type where
  | ok : FlushInput
  | stall : FlushInput
  | err : FlushInput
deriving DecidableEq

/-- User::new: a fresh session with the generic name for its id. -/
def UserSt.new (idn : Nat) : UserSt :=
  let n := s!"user{idn}"
  { name := n, idn := idn, idstr := collapse n, bytes_sucked := 0,
    quota_bytes := 0, last_data_time := 0, errs := 0, blocks := [],
    current := [], sendq := [], wire := [], addr := none, shut := false }

/-- User::set_name: update the display name and the collapsed id
string. -/
def UserSt.set_name (u : UserSt) (newName : String) : UserSt :=
  { u with name := newName, idstr := collapse newName }

/-- User::get_addr: the peer address, or None with an error recorded. -/
def UserSt.get_addr (u : UserSt) : Option String × UserSt :=
  match u.addr with
  | some a => (some a, u)
  | none => (none, { u with errs := u.errs + 1 })

/-- User::drain_byte_quota: subtract, clamped at zero. -/
def UserSt.drain_byte_quota (u : UserSt) (amount : Nat) : UserSt :=
  { u with quota_bytes := u.quota_bytes - amount }

/-- Insertion into the sorted block list at the position a binary
search reports. -/
def sortedInsert (id : Nat) : List Nat → List Nat
  | [] => [id]
  | x :: xs => if x < id then x :: sortedInsert id xs else id :: x :: xs

/-- User::block_id: insert into the sorted block list; false when
already present. -/
def UserSt.block_id (u : UserSt) (id : Nat) : Bool × UserSt :=
  if id ∈ u.blocks then (false, u)
  else (true, { u with blocks := sortedInsert id u.blocks })

/-- User::unblock_id: remove from the block list; false when not
present. -/
def UserSt.unblock_id (u : UserSt) (id : Nat) : Bool × UserSt :=
  if id ∈ u.blocks then (true, { u with blocks := u.blocks.erase id })
  else (false, u)

/-- User::deliver: enqueue an envelope unless its source is a blocked
user. -/
def UserSt.deliver (u : UserSt) (env : Env) : UserSt :=
  match env.source with
  | .user id => if id ∈ u.blocks then u else { u with sendq := u.sendq ++ [env.msg] }
  | _ => { u with sendq := u.sendq ++ [env.msg] }

/-- User::deliver_msg: enqueue a message with no block filtering. -/
def UserSt.deliver_msg (u : UserSt) (msg : Sndr) : UserSt :=
  { u with sendq := u.sendq ++ [msg] }

/-- User::nudge: if the send queue is nonempty, attempt a flush; a
full write moves the queue onto the wire, an error is recorded. -/
def UserSt.nudge (u : UserSt) (f : FlushInput) : UserSt :=
  if u.sendq = [] then u
  else
    match f with
    | .ok => { u with wire := u.wire ++ u.sendq, sendq := [] }
    | .stall => u
    | .err => { u with errs := u.errs + 1 }

/-- User::logout: enqueue a Logout message, make one flush attempt
(modelled as a no-op; the session is being dropped) and shut the
socket down. -/
def UserSt.logout (u : UserSt) (reason : String) : UserSt :=
  { u with sendq := u.sendq ++ [Sndr.Logout reason], shut := true }

/-- Every message ever sent toward this session, in order. -/
def UserSt.sent (u : UserSt) : List Sndr :=
  u.wire ++ u.sendq

/-- Model of User::try_get (src/common/src/user.rs): one suck (an
error is recorded and nothing returned), then, if the receive buffer
is nonempty, one Sock::try_get; on its Ok the last-activity time is
refreshed and, when a message of a counting kind was decoded, the
shrinkage of the receive buffer is charged to the quota.  The crash
outcome of Sock::try_get cannot occur (theorem
sockTryGet_never_crashes below); that branch returns the session
unchanged. -/
def UserSt.try_get (u : UserSt) (inp : SuckInput) (now : Nat) :
    Option Rcvr × UserSt :=
  match inp with
  | .err => (none, { u with errs := u.errs + 1 })
  | .ok bs =>
    let u := { u with bytes_sucked := u.bytes_sucked + bs.length,
                      current := u.current ++ bs }
    let n_buff := u.current.length
    if n_buff > 0 then
      match sockTryGet u.current with
      | (.got m, cur2) =>
        let u := { u with last_data_time := now, current := cur2 }
        if m.counts then
          (some m, { u with quota_bytes := u.quota_bytes + (n_buff - cur2.length) })
        else (some m, u)
      | (.pending, cur2) =>
        (none, { u with last_data_time := now, current := cur2 })
      | (.sockErr, _) => (none, { u with errs := u.errs + 1 })
      | (.crash, _) => (none, u)
    else (none, u)

/-! ## Rooms (src/common/src/room.rs, struct Room) -/

/-- Room state. -/
structure RoomSt : Type where
  idn : Nat
  name : String
  idstr : String
  users : List Nat
  op : Nat
  closed : Bool
  bans : List Nat
  invites : List Nat
  inbox : List Env
deriving DecidableEq

/-- Room::new. -/
def RoomSt.new (id : Nat) (newName : String) (creatorId : Nat) : RoomSt :=
  { idn := id, idstr := collapse newName, name := newName, users := [],
    op := creatorId, closed := false, bans := [], invites := [], inbox := [] }

/-- Room::join: append a user id to the member list. -/
def RoomSt.join (r : RoomSt) (uid : Nat) : RoomSt :=
  { r with users := r.users ++ [uid] }

/-- Room::leave: remove all occurrences of a user id from the member
list. -/
def RoomSt.leave (r : RoomSt) (uid : Nat) : RoomSt :=
  { r with users := r.users.filter (fun n => n ≠ uid) }

/-- Room::ban: remove from the invite list, append to the ban list. -/
def RoomSt.ban (r : RoomSt) (uid : Nat) : RoomSt :=
  { r with invites := r.invites.filter (fun n => n ≠ uid),
           bans := r.bans ++ [uid] }

/-- Room::invite: remove from the ban list, append to the invite
list. -/
def RoomSt.invite (r : RoomSt) (uid : Nat) : RoomSt :=
  { r with bans := r.bans.filter (fun n => n ≠ uid),
           invites := r.invites ++ [uid] }

/-- Room::set_op. -/
def RoomSt.set_op (r : RoomSt) (uid : Nat) : RoomSt :=
  { r with op := uid }

/-- Room::is_banned. -/
def RoomSt.is_banned (r : RoomSt) (uid : Nat) : Bool :=
  uid ∈ r.bans

/-- Room::is_invited. -/
def RoomSt.is_invited (r : RoomSt) (uid : Nat) : Bool :=
  uid ∈ r.invites

/-- Room::enqueue: push an envelope on the outbox. -/
def RoomSt.enqueue (r : RoomSt) (env : Env) : RoomSt :=
  { r with inbox := r.inbox ++ [env] }

/-- Deliver one envelope to one user in the user map, if present. -/
def deliverToUid (umap : List (Nat × UserSt)) (uid : Nat) (env : Env) :
    List (Nat × UserSt) :=
  match lookupA umap uid with
  | some u => insertA umap uid (u.deliver env)
  | none => umap

/-- Room::deliver: route an envelope to its destination user, or to
every current member in member-list order. -/
def RoomSt.deliver (r : RoomSt) (env : Env) (umap : List (Nat × UserSt)) :
    List (Nat × UserSt) :=
  match env.dest with
  | .user uid => deliverToUid umap uid env
  | _ => r.users.foldl (fun m uid => deliverToUid m uid env) umap

/-- Room::deliver_inbox: deliver every queued envelope in order and
clear the outbox. -/
def RoomSt.deliver_inbox (r : RoomSt) (umap : List (Nat × UserSt)) :
    RoomSt × List (Nat × UserSt) :=
  ({ r with inbox := [] }, r.inbox.foldl (fun m env => r.deliver env m) umap)

/-! ## Server state and configuration

The dispatcher owns four indexes (struct Context in
src/server/src/processing.rs): users by id, user ids by collapsed
name, rooms by id, room ids by collapsed name.  The configuration
carries the fields the dispatcher reads (struct ServerConfig in
src/common/src/config.rs); durations are in milliseconds.
-/

/-- The four dispatcher indexes. -/
structure SState : Type where
  umap : List (Nat × UserSt)
  ustr : List (String × Nat)
  rmap : List (Nat × RoomSt)
  rstr : List (String × Nat)
deriving DecidableEq

/-- The server configuration fields the dispatcher reads. -/
structure ServerConfig : Type where
  byte_limit : Nat
  byte_tick : Nat
  time_to_ping : Nat
  time_to_kick : Nat
  max_user_name_length : Nat
  max_room_name_length : Nat
  lobby_name : String
  welcome_message : String
deriving DecidableEq

/-- Result of a command handler: the mutated state (mutations made
before an internal error persist, as they do through the Rust &mut
borrows) and either the produced envelopes or an internal error
message.  Internal error strings here are simplified; they are logged
and never inspected. -/
abbrev HRes := SState × Except String (List Env)

/-- Instant::checked_duration_since. -/
def checkedDur (now earlier : Nat) : Option Nat :=
  if earlier ≤ now then some (now - earlier) else none

/-- fn match_string: the keys of an index with a given prefix, in
index order. -/
def match_string (s : String) (hash : List (String × Nat)) : List String :=
  (keysA hash).filter (fun k => k.startsWith s)

/-- fn append_comma_delimited_list: append the comma-separated list to
the base string (nothing when the list is empty). -/
def append_comma_delimited_list (base : String) (v : List String) : String :=
  base ++ String.intercalate ", " v

/-- fn first_free_id: the smallest id not bound in the map.  The Rust
loop searches 0, 1, 2, ...; by pigeonhole a free id exists among the
first length + 1 candidates (theorem first_free_id_not_mem below), so
the search is bounded. -/
def first_free_id {α : Type} (m : List (Nat × α)) : Nat :=
  match (List.range (m.length + 1)).find? (fun n => !containsA m n) with
  | some n => n
  | none => m.length + 1

/-! ## Command handlers (src/server/src/processing.rs)

Each handler takes the current room id, the acting user id and the
state, and returns the mutated state with the envelopes it produced.
src/server/src/main.rs holds an earlier revision of the same handlers
differing only in the wording of a few replies (noted where a claim
touches one); the embedding follows src/server/src/processing.rs.
-/

/-- fn do_text. -/
def do_text (rid uid : Nat) (S : SState) (lines : List String) : HRes :=
  match lookupA S.umap uid with
  | none => (S, .error "do_text: no user")
  | some user =>
    let uname := user.name
    (S, .ok [⟨.user uid, .room rid, .Text uname lines⟩])

/-- fn do_priv. -/
def do_priv (rid uid : Nat) (S : SState) (who text : String) : HRes :=
  match lookupA S.umap uid with
  | none => (S, .error "do_priv: no user")
  | some user =>
    let recipient := collapse who
    if recipient = "" then
      (S, .ok [⟨.server, .user uid,
        .Err "The recipient name must have at least one non-whitespace character."⟩])
    else
      match lookupA S.ustr recipient with
      | none =>
        (S, .ok [⟨.server, .user uid,
          .Err s!"The recipient name \"{recipient}\" is not recognized."⟩])
      | some tid =>
        match lookupA S.umap tid with
        | none => (S, .error "do_priv: no target user")
        | some target =>
          let tname := target.name
          let uname := user.name
          let echoEnv : Env := ⟨.server, .user uid,
            .Misc "priv_echo" [tname, text] s!"$ You @ {tname}: {text}"⟩
          let toEnv : Env := ⟨.user uid, .user tid, .Priv uname text⟩
          (S, .ok [echoEnv, toEnv])

/-- fn do_name. -/
def do_name (rid uid : Nat) (S : SState) (cfg : ServerConfig)
    (new_candidate : String) : HRes :=
  let new_str := collapse new_candidate
  if new_str = "" then
    (S, .ok [⟨.server, .user uid,
      .Err "Your name must have more whitespace characters."⟩])
  else if new_candidate.utf8ByteSize > cfg.max_user_name_length then
    let maxLen := cfg.max_user_name_length
    (S, .ok [⟨.server, .user uid,
      .Err s!"Your name cannot be longer than {maxLen} characters."⟩])
  else
    let collision : Option HRes :=
      match lookupA S.ustr new_str with
      | some other_user_id =>
        match lookupA S.umap other_user_id with
        | none => some (S, .error "do_name: no other user")
        | some other_user =>
          if other_user_id ≠ uid then
            let oname := other_user.name
            some (S, .ok [⟨.server, .user uid,
              .Err s!"There is already a user named \"{oname}\"."⟩])
          else none
      | none => none
    match collision with
    | some res => res
    | none =>
      match lookupA S.umap uid with
      | none => (S, .error "do_name: no user")
      | some mu =>
        let old_name := mu.name
        let old_idstr := mu.idstr
        let mu := mu.set_name new_candidate
        let new_idstr := mu.idstr
        let env : Env := ⟨.server, .room rid,
          .Misc "name" [old_name, new_candidate]
            s!"{old_name} is now known as {new_candidate}."⟩
        let S := { S with umap := insertA S.umap uid mu,
                          ustr := insertA (removeA S.ustr old_idstr) new_idstr uid }
        (S, .ok [env])

/-- fn do_join.  The room-creation arm inserts the fresh room before
looking the acting user back up; that lookup is an unwrap in the
source and is modelled as an internal error keeping the insertion. -/
def do_join (rid uid : Nat) (S : SState) (cfg : ServerConfig)
    (room_name : String) : HRes :=
  let normalized := collapse room_name
  if normalized = "" then
    (S, .ok [⟨.server, .user uid,
      .Err "A room name must have more non-whitespace characters."⟩])
  else if room_name.utf8ByteSize > cfg.max_room_name_length then
    let maxLen := cfg.max_room_name_length
    (S, .ok [⟨.server, .user uid,
      .Err s!"Room names cannot be longer than {maxLen} characters."⟩])
  else
    let created : SState × Option Nat :=
      match lookupA S.rstr normalized with
      | some n => (S, some n)
      | none =>
        let new_id := first_free_id S.rmap
        let new_room := RoomSt.new new_id room_name uid
        let S := { S with rstr := insertA S.rstr normalized new_id,
                          rmap := insertA S.rmap new_id new_room }
        match lookupA S.umap uid with
        | none => (S, none)
        | some mu =>
          let mu := mu.deliver_msg (.Info s!"You create room \"{room_name}\".")
          ({ S with umap := insertA S.umap uid mu }, some new_id)
    match created with
    | (S, none) => (S, .error "do_join: no user at creation")
    | (S, some target_room_id) =>
      match lookupA S.umap uid with
      | none => (S, .error "do_join: no user")
      | some user =>
        let username := user.name
        match lookupA S.rmap target_room_id with
        | none => (S, .error "do_join: no target room")
        | some target_room =>
          let rname := target_room.name
          if target_room_id = rid then
            (S, .ok [⟨.server, .user uid, .Info s!"You are already in \"{rname}\"."⟩])
          else if target_room.is_banned uid then
            (S, .ok [⟨.server, .user uid, .Info s!"You are banned from \"{rname}\"."⟩])
          else if target_room.closed ∧ ¬ target_room.is_invited uid then
            (S, .ok [⟨.server, .user uid, .Info s!"\"{rname}\" is closed."⟩])
          else
            let joinEnv : Env := ⟨.server, .room target_room_id,
              .Misc "join" [username, rname] s!"{username} joins {rname}."⟩
            let target_room := (target_room.join uid).enqueue joinEnv
            let S := { S with rmap := insertA S.rmap target_room_id target_room }
            match lookupA S.rmap rid with
            | none => (S, .error "do_join: no current room")
            | some current_room =>
              let leaveEnv : Env := ⟨.server, .room target_room_id,
                .Misc "leave" [username, "[ moved to another room ]"]
                  s!"{username} moved to another room."⟩
              let current_room := current_room.leave uid
              let S := { S with rmap := insertA S.rmap rid current_room }
              (S, .ok [leaveEnv])

/-- fn do_block. -/
def do_block (rid uid : Nat) (S : SState) (username : String) : HRes :=
  let normalized := collapse username
  if normalized = "" then
    (S, .ok [⟨.server, .user uid,
      .Err "A user name must have more non-whitespace characters."⟩])
  else
    match lookupA S.ustr normalized with
    | none =>
      (S, .ok [⟨.server, .user uid,
        .Info s!"No users matching the pattern \"{normalized}\"."⟩])
    | some other_user_id =>
      if other_user_id = uid then
        (S, .ok [⟨.server, .user uid, .Err "You should not block yourself."⟩])
      else
        match lookupA S.umap other_user_id with
        | none => (S, .error "do_block: no target user")
        | some other_user =>
          let blocked_name := other_user.name
          match lookupA S.umap uid with
          | none => (S, .error "do_block: no user")
          | some user =>
            let res := user.block_id other_user_id
            let user := res.2
            let user :=
              if res.1 then
                user.deliver_msg (.Info s!"You are now blocking {blocked_name}.")
              else
                user.deliver_msg (.Err s!"You are already blocking {blocked_name}.")
            ({ S with umap := insertA S.umap uid user }, .ok [])

/-- fn do_unblock. -/
def do_unblock (rid uid : Nat) (S : SState) (username : String) : HRes :=
  let normalized := collapse username
  if normalized = "" then
    (S, .ok [⟨.server, .user uid, .Err "That cannot be anyones user name."⟩])
  else
    match lookupA S.ustr normalized with
    | none =>
      (S, .ok [⟨.server, .user uid,
        .Info s!"No users matching the pattern \"{normalized}\"."⟩])
    | some other_user_id =>
      if other_user_id = uid then
        (S, .ok [⟨.server, .user uid,
          .Err "You could not block yourself; you cannot unblock yourself."⟩])
      else
        match lookupA S.umap other_user_id with
        | none => (S, .error "do_unblock: no target user")
        | some other_user =>
          let blocked_name := other_user.name
          match lookupA S.umap uid with
          | none => (S, .error "do_unblock: no user")
          | some user =>
            let res := user.unblock_id other_user_id
            let user := res.2
            let user :=
              if res.1 then
                user.deliver_msg (.Info s!"You are no longer blocking {blocked_name}.")
              else
                user.deliver_msg (.Err s!"You are not blocking {blocked_name}.")
            ({ S with umap := insertA S.umap uid user }, .ok [])

/-- fn do_logout. -/
def do_logout (rid uid : Nat) (S : SState) (salutation : String) : HRes :=
  match lookupA S.rmap rid with
  | none => (S, .error "do_logout: no room")
  | some current_room =>
    let current_room := current_room.leave uid
    let S := { S with rmap := insertA S.rmap rid current_room }
    match lookupA S.umap uid with
    | none => (S, .error "do_logout: no user")
    | some mu =>
      let S := { S with umap := removeA S.umap uid,
                        ustr := removeA S.ustr mu.idstr }
      let uname := mu.name
      let env : Env := ⟨.server, .room rid,
        .Misc "leave" [uname, salutation] s!"{uname} left: {salutation}"⟩
      let current_room := current_room.enqueue env
      ({ S with rmap := insertA S.rmap rid current_room }, .ok [])

/-- fn do_query. -/
def do_query (rid uid : Nat) (S : SState) (what arg : String) : HRes :=
  if what = "addr" then
    match lookupA S.umap uid with
    | none => (S, .error "do_query: no user")
    | some mu =>
      let res := mu.get_addr
      let mu := res.2
      let pair : String × String :=
        match res.1 with
        | none => ("???", "Your public address cannot be determined.")
        | some address => (address, s!"Your public address is {address}.")
      let addr_str := pair.1
      let alt_str := pair.2
      let mu := mu.deliver_msg (.Misc "addr" [addr_str] alt_str)
      ({ S with umap := insertA S.umap uid mu }, .ok [])
  else if what = "roster" then
    match lookupA S.rmap rid with
    | none => (S, .error "do_query: no room")
    | some current_room =>
      let op_id := current_room.op
      let rname := current_room.name
      let names_list := current_room.users.reverse.filterMap (fun user_id =>
        if user_id = op_id then none else (lookupA S.umap user_id).map UserSt.name)
      let result : List String × String :=
        if op_id = 0 then
          (names_list, append_comma_delimited_list s!"{rname} roster: " names_list)
        else
          let op_name := ((lookupA S.umap op_id).map UserSt.name).getD "[ ??? ]"
          (names_list ++ [op_name],
            append_comma_delimited_list s!"{rname} roster: {op_name} (operator) "
              names_list)
      let names_ref := result.1.reverse
      let alt := result.2
      (S, .ok [⟨.server, .user uid, .Misc "roster" names_ref alt⟩])
  else if what = "who" then
    let normalized := collapse arg
    let matchesL := match_string normalized S.ustr
    if matchesL = [] then
      (S, .ok [⟨.server, .user uid,
        .Info s!"No users matching the pattern \"{normalized}\"."⟩])
    else
      let alt := append_comma_delimited_list "Matching names: " matchesL
      (S, .ok [⟨.server, .user uid, .Misc "who" matchesL alt⟩])
  else if what = "rooms" then
    let normalized := collapse arg
    let matchesL := match_string normalized S.rstr
    if matchesL = [] then
      (S, .ok [⟨.server, .user uid,
        .Info s!"No Rooms matching the pattern \"{normalized}\"."⟩])
    else
      let alt := append_comma_delimited_list "Matching Rooms: " matchesL
      (S, .ok [⟨.server, .user uid, .Misc "rooms" matchesL alt⟩])
  else
    (S, .ok [⟨.server, .user uid, .Err s!"Unknown \"Query\" type: \"{what}\"."⟩])

/-- fn do_op.  The lobby lookup in the kick arm is an unwrap in the
source; it is modelled as an internal error keeping the mutations made
so far. -/
def do_op (rid uid : Nat) (S : SState) (op : RcvOp) : HRes :=
  match lookupA S.rmap rid with
  | none => (S, .error "do_op: no room")
  | some current_room0 =>
    if current_room0.op ≠ uid then
      (S, .ok [⟨.server, .user uid, .Err "You are not the operator of this Room."⟩])
    else
      match lookupA S.umap uid with
      | none => (S, .error "do_op: no user")
      | some opUser =>
        let op_name := opUser.name
        match op with
        | .Open =>
          let rname := current_room0.name
          if current_room0.closed then
            let current_room := { current_room0 with closed := false }
            ({ S with rmap := insertA S.rmap rid current_room },
              .ok [⟨.server, .room rid, .Info s!"{op_name} has opened {rname}."⟩])
          else
            (S, .ok [⟨.server, .user uid, .Info s!"{rname} is already open."⟩])
        | .Close =>
          let rname := current_room0.name
          if current_room0.closed then
            (S, .ok [⟨.server, .user uid, .Info s!"{rname} is already closed."⟩])
          else
            let current_room := { current_room0 with closed := true }
            ({ S with rmap := insertA S.rmap rid current_room },
              .ok [⟨.server, .room rid, .Info s!"{op_name} has closed {rname}."⟩])
        | .Give new_name =>
          let normalized := collapse new_name
          if normalized = "" then
            (S, .ok [⟨.server, .user uid, .Err "That cannot be anyones user name."⟩])
          else
            match lookupA S.ustr normalized with
            | none =>
              (S, .ok [⟨.server, .user uid,
                .Info s!"No users matching the pattern \"{normalized}\"."⟩])
            | some other_user_id =>
              if other_user_id = uid then
                (S, .ok [⟨.server, .user uid,
                  .Info "You are already the operator of this room."⟩])
              else
                match lookupA S.umap other_user_id with
                | none => (S, .error "do_op give: no target user")
                | some other_user =>
                  let other_username := other_user.name
                  let rname := current_room0.name
                  if ¬ (other_user_id ∈ current_room0.users) then
                    (S, .ok [⟨.server, .user uid,
                      .Info s!"{other_username} must be in the room to transfer ownership."⟩])
                  else
                    let current_room := current_room0.set_op other_user_id
                    ({ S with rmap := insertA S.rmap rid current_room },
                      .ok [⟨.server, .room rid,
                        .Misc "new_op" [other_username, rname]
                          s!"{other_username} is now the operator of {rname}."⟩])
        | .Invite username =>
          let normalized := collapse username
          if normalized = "" then
            (S, .ok [⟨.server, .user uid, .Info "That cannot be anyones user name."⟩])
          else
            match lookupA S.ustr normalized with
            | none =>
              (S, .ok [⟨.server, .user uid,
                .Info s!"No users matching the pattern \"{normalized}\"."⟩])
            | some other_user_id =>
              let rname := current_room0.name
              if other_user_id = uid then
                (S, .ok [⟨.server, .user uid,
                  .Info s!"You are already allowed in {rname}."⟩])
              else
                match lookupA S.umap other_user_id with
                | none => (S, .error "do_op invite: no target user")
                | some other_user =>
                  let oname := other_user.name
                  if current_room0.is_invited other_user_id then
                    (S, .ok [⟨.server, .user uid,
                      .Info s!"{oname} has already been invited to {rname}."⟩])
                  else
                    let current_room := current_room0.invite other_user_id
                    if other_user_id ∈ current_room.users then
                      let other_user := other_user.deliver_msg
                        (.Info s!"You have been invited to return to {rname} even if it closes.")
                      ({ S with rmap := insertA S.rmap rid current_room,
                                umap := insertA S.umap other_user_id other_user },
                        .ok [⟨.server, .user uid,
                          .Info s!"{oname} may now return to {rname} even when closed."⟩])
                    else
                      let other_user := other_user.deliver_msg
                        (.Info s!"You have been invited to join {rname}.")
                      ({ S with rmap := insertA S.rmap rid current_room,
                                umap := insertA S.umap other_user_id other_user },
                        .ok [⟨.server, .user uid,
                          .Info s!"You invite {oname} to join {rname}."⟩])
        | .Kick username =>
          let normalized := collapse username
          if normalized = "" then
            (S, .ok [⟨.server, .user uid, .Info "That cannot be anyones user name."⟩])
          else
            match lookupA S.ustr normalized with
            | none =>
              (S, .ok [⟨.server, .user uid,
                .Info s!"No users matching the pattern \"{normalized}\"."⟩])
            | some other_user_id =>
              if other_user_id = uid then
                (S, .ok [⟨.server, .user uid, .Info "You cannot kick yourself."⟩])
              else
                match lookupA S.umap other_user_id with
                | none => (S, .error "do_op kick: no target user")
                | some target_user =>
                  let tname := target_user.name
                  let rname := current_room0.name
                  if current_room0.is_banned other_user_id then
                    (S, .ok [⟨.server, .user uid,
                      .Info s!"{tname} is already banned from {rname}."⟩])
                  else
                    let room1 := current_room0.ban other_user_id
                    let in_room := other_user_id ∈ room1.users
                    if ¬ in_room then
                      ({ S with rmap := insertA S.rmap rid room1 },
                        .ok [⟨.server, .user uid,
                          .Info s!"You have banned {tname} from {rname}."⟩])
                    else
                      let target_user := target_user.deliver_msg
                        (.Misc "kick_you" [rname] s!"You have been kicked from {rname}.")
                      let room2 := room1.leave other_user_id
                      let current_room_name := room2.name
                      let S := { S with rmap := insertA S.rmap rid room2,
                                        umap := insertA S.umap other_user_id target_user }
                      match lookupA S.rmap 0 with
                      | none => (S, .error "do_op kick: no lobby")
                      | some lobby =>
                        let lobby := lobby.join other_user_id
                        let lname := lobby.name
                        let toLobby : Env := ⟨.server, .room rid,
                          .Misc "join" [tname, lname] s!"{tname} joined {lname}."⟩
                        let lobby := lobby.enqueue toLobby
                        let S := { S with rmap := insertA S.rmap 0 lobby }
                        (S, .ok [⟨.server, .room rid,
                          .Misc "kick_other" [tname, current_room_name]
                            s!"{tname} has been kicked from {current_room_name}."⟩])

/-- The handler dispatch of process_room: match on the decoded message
kind (the remaining kinds require no response). -/
def dispatch (cfg : ServerConfig) (rid uid : Nat) (S : SState) (m : Rcvr) : HRes :=
  match m with
  | .Text _ lines => do_text rid uid S lines
  | .Priv who text => do_priv rid uid S who text
  | .Name new_candidate => do_name rid uid S cfg new_candidate
  | .Join room_name => do_join rid uid S cfg room_name
  | .Block username => do_block rid uid S username
  | .Unblock username => do_unblock rid uid S username
  | .Logout salutation => do_logout rid uid S salutation
  | .Query what arg => do_query rid uid S what arg
  | .Op op => do_op rid uid S op
  | _ => (S, .ok [])

/-! ## The per-room tick (fn process_room, src/server/src/processing.rs)

process_room snapshots the member list, then runs one step per
member: quota bookkeeping (with the resume notice when an over-quota
counter drains back to the limit), one decode attempt (with ping /
idle-kick handling when nothing decodes, silent dropping when over
quota, and the exceeded notice when the accepted message pushed the
counter over), the accumulated-errors check, and handler dispatch.
Forced logouts are then processed, the operator succeeded if
necessary, and the delivery phase runs.  Reads from each member
socket arrive through `net`; flush outcomes through `flush`.
-/

/-- Accumulator of the member loop: state, tick envelope list, forced
logouts. -/
abbrev StepAcc := SState × List Env × List (Nat × String)

/-- The quota bookkeeping at the head of a member step: drain
byte_tick from the counter and, when a counter that exceeded
byte_limit has come back to it or below, queue the resume notice. -/
def quotaStep (cfg : ServerConfig) (u : UserSt) : UserSt :=
  let over_quota := u.quota_bytes > cfg.byte_limit
  let u := u.drain_byte_quota cfg.byte_tick
  if over_quota ∧ u.quota_bytes ≤ cfg.byte_limit then
    u.deliver_msg (.Err "You may send messages again.")
  else u

/-- One member step of process_room (the body of the member loop). -/
def memberStep (cfg : ServerConfig) (now : Nat) (net : Nat → SuckInput)
    (rid : Nat) (acc : StepAcc) (uid : Nat) : StepAcc :=
  let S := acc.1
  let envs := acc.2.1
  let logouts := acc.2.2
  match lookupA S.umap uid with
  | none => (S, envs, logouts)
  | some u =>
    let over_quota := u.quota_bytes > cfg.byte_limit
    let u := quotaStep cfg u
    match u.try_get (net uid) now with
    | (none, u) =>
      let S := { S with umap := insertA S.umap uid u }
      match checkedDur now u.last_data_time with
      | some x =>
        if x > cfg.time_to_kick then
          (S, envs,
            logouts ++ [(uid, "Too long since server received data from the client.")])
        else if x > cfg.time_to_ping then
          ({ S with umap := insertA S.umap uid (u.deliver_msg .Ping) }, envs, logouts)
        else (S, envs, logouts)
      | none => (S, envs, logouts)
    | (some m, u) =>
      if over_quota then
        ({ S with umap := insertA S.umap uid u }, envs, logouts)
      else
        let u :=
          if u.quota_bytes > cfg.byte_limit then
            u.deliver_msg (.Err "You have exceeded your data quota and your messages will be ignored for a short time.")
          else u
        let logouts :=
          if u.errs > 0 then logouts ++ [(uid, "Communication error.")] else logouts
        let S := { S with umap := insertA S.umap uid u }
        match dispatch cfg rid uid S m with
        | (S, .ok es) => (S, envs ++ es, logouts)
        | (S, .error _) => (S, envs, logouts)

/-- The forced-logout phase of process_room: remove each collected
user from both user indexes, queue it a Logout (the session is dropped
with it), and add a room-wide leave notice to the tick envelopes. -/
def logoutPhase (rid : Nat) (acc : SState × List Env) (p : Nat × String) :
    SState × List Env :=
  let S := acc.1
  let envs := acc.2
  match lookupA S.umap p.1 with
  | none => (S, envs)
  | some u =>
    let uname := u.name
    let S := { S with umap := removeA S.umap p.1, ustr := removeA S.ustr u.idstr }
    (S, envs ++ [⟨.server, .room rid,
      .Misc "leave" [uname, "[ disconnected by server ]"]
        s!"{uname} has been disconnected from the server."⟩])

/-- The operator-succession step of process_room: in any room but the
lobby, when the operator id is no longer in the member list, promote
the first member that exists in the user map, announcing it.  (The
room lookup is an unwrap in the source; the room is present.) -/
def succession (rid : Nat) (acc : SState × List Env) : SState × List Env :=
  let S := acc.1
  let envs := acc.2
  if rid ≠ 0 then
    match lookupA S.rmap rid with
    | none => (S, envs)
    | some room =>
      let op_id := room.op
      if op_id ∈ room.users then (S, envs)
      else
        match room.users.head? with
        | some pnid =>
          match lookupA S.umap pnid with
          | some u =>
            let uname := u.name
            let room := room.set_op pnid
            ({ S with rmap := insertA S.rmap rid room },
              envs ++ [⟨.server, .room rid, .Info s!"{uname} is now the Room operator."⟩])
          | none => (S, envs)
        | none => (S, envs)
  else (S, envs)

/-- The delivery phase of process_room: remove the forced logouts from
the member list, flush the room outbox, deliver every tick envelope,
and nudge each remaining member socket.  (The room lookup is an unwrap
in the source; the room is present.) -/
def deliveryPhase (rid : Nat) (S : SState) (envs : List Env)
    (logouts : List (Nat × String)) (flush : Nat → FlushInput) : SState :=
  match lookupA S.rmap rid with
  | none => S
  | some room =>
    let room := logouts.foldl (fun r p => r.leave p.1) room
    let res := room.deliver_inbox S.umap
    let room := res.1
    let umap := envs.foldl (fun m env => room.deliver env m) res.2
    let uid_list := room.users
    let S := { S with umap := umap, rmap := insertA S.rmap rid room }
    uid_list.foldl (fun St uid2 =>
      match lookupA St.umap uid2 with
      | some u => { St with umap := insertA St.umap uid2 (u.nudge (flush uid2)) }
      | none => St) S

/-- fn process_room: the full per-room tick. -/
def process_room (rid : Nat) (now : Nat) (S : SState) (net : Nat → SuckInput)
    (flush : Nat → FlushInput) (cfg : ServerConfig) :
    Except String Unit × SState :=
  match lookupA S.rmap rid with
  | none => (.error s!"Room {rid} does not exist.", S)
  | some r =>
    let acc := r.users.foldl (memberStep cfg now net rid) (S, [], [])
    let S := acc.1
    let envs := acc.2.1
    let logouts := acc.2.2
    let res := logouts.foldl (logoutPhase rid) (S, envs)
    let res := succession rid res
    (.ok (), deliveryPhase rid res.1 res.2 logouts flush)

/-! ## The dispatcher main loop (fn main, src/server/src/main.rs)

Each iteration snapshots the room ids, runs process_room on each
(destroying any non-lobby room left without members, and removing its
entry from the name index), and then polls the accept channel: an
arriving session is welcomed, its name validated (with a generated
fallback on failure), and it is placed in the lobby and both user
indexes.  src/server/src/main.rs carries its own revision of
process_room and the handlers; it matches src/server/src/processing.rs
in everything these theorems touch (the self-kick reply and two
unblock replies differ in wording only).
-/

/-- fn gen_name: the first generic name of the form user-then-number,
counting up from the
given start, whose name is unbound in the index.  By pigeonhole a
bounded search suffices; the fallback is unreachable. -/
def gen_name_go (map : List (String × Nat)) : Nat → Nat → String
  | 0, n => s!"user{n}"
  | fuel + 1, n =>
    let nm := s!"user{n}"
    if containsA map nm then gen_name_go map fuel (n + 1) else nm

/-- fn gen_name. -/
def gen_name (init_count : Nat) (map : List (String × Nat)) : String :=
  gen_name_go map (map.length + 1) init_count

/-- The join-lobby procedure of the main loop for one accepted session
(arriving with its id and the name negotiated by the listener): send
the welcome, validate the name (empty collapsed form, over-long name,
or collision force a generated rename with an Err and a name notice),
then join the lobby, queue the lobby-wide join notice, and insert into
both user indexes.  (The lobby lookup is an unwrap in the source; the
collision arm reads the colliding user, also an unwrap, modelled with
a default.) -/
def acceptUser (cfg : ServerConfig) (S : SState) (arrival : Option (Nat × String)) :
    SState :=
  match arrival with
  | none => S
  | some (uid, negotiated) =>
    let u := (UserSt.new uid).set_name negotiated
    let u := u.deliver_msg (.Info cfg.welcome_message)
    let rename : Option String :=
      if u.idstr.utf8ByteSize = 0 then
        some "Your name does not have enough whitespace characters."
      else if u.name.utf8ByteSize > cfg.max_user_name_length then
        let maxLen := cfg.max_user_name_length
        some s!"Your name cannot be longer than {maxLen} chars."
      else
        match lookupA S.ustr u.idstr with
        | some user_n =>
          let existing := ((lookupA S.umap user_n).map UserSt.name).getD ""
          some s!"Name \"{existing}\" exists."
        | none => none
    let u :=
      match rename with
      | some err_msg =>
        let new_name := gen_name u.idn S.ustr
        let u := u.deliver_msg (.Err err_msg)
        let old_name := u.name
        let msg := Sndr.Misc "name" [old_name, new_name]
          s!"You are now known as \"{new_name}\"."
        let u := u.set_name new_name
        u.deliver_msg msg
      | none => u
    let uname := u.name
    let lobbyName := cfg.lobby_name
    let env : Env := ⟨.server, .room 0,
      .Misc "join" [uname, lobbyName] s!"{uname} joins {lobbyName}."⟩
    match lookupA S.rmap 0 with
    | none => S
    | some lobby =>
      let lobby := (lobby.join u.idn).enqueue env
      { S with rmap := insertA S.rmap 0 lobby,
               ustr := insertA S.ustr u.idstr u.idn,
               umap := insertA S.umap u.idn u }

/-- Inputs consumed by one iteration of the main loop: the current
time, the bytes each member socket yields (per room processed, per
user), each flush outcome, and at most one accepted session. -/
structure IterIn : Type where
  now : Nat
  net : Nat → Nat → SuckInput
  flush : Nat → Nat → FlushInput
  arrival : Option (Nat × String)

/-- One room of the main loop body: process_room (its error, if any,
is logged and ignored) followed by the empty-room destruction check,
which removes a memberless non-lobby room from both room indexes. -/
def roomStep (cfg : ServerConfig) (ins : IterIn) (S : SState) (rid : Nat) :
    SState :=
  let S := (process_room rid ins.now S (ins.net rid) (ins.flush rid) cfg).2
  if rid ≠ 0 then
    match lookupA S.rmap rid with
    | some r =>
      if r.users.length = 0 then
        { S with rstr := removeA S.rstr r.idstr, rmap := removeA S.rmap rid }
      else S
    | none => S
  else S

/-- One full iteration of the dispatcher main loop. -/
def iterBody (cfg : ServerConfig) (S : SState) (ins : IterIn) : SState :=
  let roomz := keysA S.rmap
  let S := roomz.foldl (roomStep cfg ins) S
  acceptUser cfg S ins.arrival

/-- The dispatcher state as fn main sets it up: empty indexes except
for the lobby, created with id 0, creator id 0, and its creator
immediately removed. -/
def initState (cfg : ServerConfig) : SState :=
  { umap := [], ustr := [],
    rmap := insertA [] 0 ((RoomSt.new 0 cfg.lobby_name 0).leave 0), rstr := [] }

/-- States the dispatcher can be in at an iteration boundary:
the initial state, and anything one further iteration reaches. -/
inductive Reachable (cfg : ServerConfig) : SState → Prop where
  | init : Reachable cfg (initState cfg)
  | step : ∀ {S : SState}, Reachable cfg S → ∀ ins : IterIn,
      Reachable cfg (iterBody cfg S ins)

/-! ## Specification predicates

Shapes used by the theorems below to describe states and the effect
of one room tick on the rooms other than the one being processed.
-/

/-- Every binding of the room name index points at a present room
whose collapsed name is the bound key. -/
def RoomsCoherent (S : SState) : Prop :=
  ∀ k rid2, lookupA S.rstr k = some rid2 →
    ∃ room, lookupA S.rmap rid2 = some room ∧ room.idstr = k

/-- How a step taken while processing room rid may affect the room
map outside rid: a room already present only has member ids appended
(its collapsed name untouched), and a room that appears is created
with a member in it. -/
def RmapEvo (rid : Nat) (m m2 : List (Nat × RoomSt)) : Prop :=
  ∀ A, A ≠ rid →
    (∀ r, lookupA m A = some r →
      ∃ r2, lookupA m2 A = some r2 ∧ (∃ ex, r2.users = r.users ++ ex) ∧
        r2.idstr = r.idstr)
    ∧ (lookupA m A = none → ∀ r2, lookupA m2 A = some r2 → r2.users ≠ [])

/-- Joint postcondition of the handlers and of the member steps of
process_room on room rid, relating the state before to the state
after: outside rid the room map only grows in the sense of RmapEvo;
the room rid does not disappear; when rid is present afterwards it
either evolved from a room present before (same collapsed name, no
new members) or was freshly created empty; name-index coherence is
preserved; and a user entry disappears from the user map only
together with its membership of rid. -/
def HandlerOK (rid : Nat) (S S2 : SState) : Prop :=
  RmapEvo rid S.rmap S2.rmap
  ∧ (∀ r, lookupA S.rmap rid = some r → (lookupA S2.rmap rid).isSome = true)
  ∧ (∀ r2, lookupA S2.rmap rid = some r2 →
      (∃ r, lookupA S.rmap rid = some r ∧ r2.idstr = r.idstr ∧
        ∀ u2 ∈ r2.users, u2 ∈ r.users) ∨ r2.users = [])
  ∧ (RoomsCoherent S → RoomsCoherent S2)
  ∧ (∀ u2, (lookupA S.umap u2).isSome = true →
      (lookupA S2.umap u2).isSome = true ∨
        (∀ r2, lookupA S2.rmap rid = some r2 → u2 ∉ r2.users))

/-- The part of HandlerOK that the forced-logout phase also satisfies
(it can remove a user entry without touching the room): what one whole
tick on room rid guarantees about the room indexes. -/
def TickOK (rid : Nat) (S S2 : SState) : Prop :=
  RmapEvo rid S.rmap S2.rmap
  ∧ (∀ r, lookupA S.rmap rid = some r → (lookupA S2.rmap rid).isSome = true)
  ∧ (RoomsCoherent S → RoomsCoherent S2)

/-- A state in which every member of the room rid (when present) has
an entry in the user map. -/
def MembersKnown (rid : Nat) (S : SState) : Prop :=
  ∀ r, lookupA S.rmap rid = some r →
    ∀ u ∈ r.users, (lookupA S.umap u).isSome = true

/-- The loop invariant of the room pass of one main-loop iteration:
coherence, the lobby, and every present non-lobby room either still to
be processed or non-empty. -/
def LoopInv (l : List Nat) (S : SState) : Prop :=
  RoomsCoherent S ∧ (lookupA S.rmap 0).isSome = true ∧
    ∀ A r, A ≠ 0 → lookupA S.rmap A = some r → (A ∈ l ∨ r.users ≠ [])

/-- The state shape C9 asserts at iteration boundaries: the name index
is coherent, the lobby is present, and no non-lobby room is empty. -/
def GoodRooms (S : SState) : Prop :=
  RoomsCoherent S ∧ (lookupA S.rmap 0).isSome = true ∧
    ∀ A r, A ≠ 0 → lookupA S.rmap A = some r → r.users ≠ []

/-! ## Example configuration and states

Concrete instances used by the closed counterexample and witness
theorems below.
-/

/-- The default server configuration values (src/common/src/config.rs). -/
def exCfg : ServerConfig :=
  { byte_limit := 512, byte_tick := 6, time_to_ping := 10000,
    time_to_kick := 20000, max_user_name_length := 24,
    max_room_name_length := 24, lobby_name := "Lobby",
    welcome_message := "Welcome to the server." }

/-- A user session with a given id, name and last-activity time. -/
def exUser (idn : Nat) (nm : String) (last : Nat) : UserSt :=
  { (UserSt.new idn).set_name nm with last_data_time := last }

/-- The lobby as fn main creates it. -/
def exLobby : RoomSt :=
  (RoomSt.new 0 "Lobby" 0).leave 0

/-- A state with alice (op, silent since time 0) and bob (active) in
room 1 "Garden", and an empty lobby: at time 30000 alice is past
time_to_kick. -/
def exStateC1 : SState :=
  { umap := [(100, exUser 100 "alice" 0), (101, exUser 101 "bob" 30000)],
    ustr := [("alice", 100), ("bob", 101)],
    rmap := [(0, exLobby), (1, { RoomSt.new 1 "Garden" 100 with users := [100, 101] })],
    rstr := [("garden", 1)] }

/-- A state with alice (op) and bob in room 1 "Garden" and carl in the
lobby, everyone recently active. -/
def exStateC8 : SState :=
  { umap := [(100, exUser 100 "alice" 30000), (101, exUser 101 "bob" 30000),
             (102, exUser 102 "carl" 30000)],
    ustr := [("alice", 100), ("bob", 101), ("carl", 102)],
    rmap := [(0, { exLobby with users := [102] }),
             (1, { RoomSt.new 1 "Garden" 100 with users := [100, 101] })],
    rstr := [("garden", 1)] }

/-- A user over quota: 600 counted bytes against the default limit of
512. -/
def exOverUser : UserSt :=
  { exUser 100 "alice" 30000 with quota_bytes := 600 }

/-- A user just over quota: draining one byte_tick brings it to the
limit. -/
def exBarelyOverUser : UserSt :=
  { exUser 100 "alice" 30000 with quota_bytes := 515 }

/-- The byte encoding of the message Name("al"). -/
def encNameAl : List Byte :=
  [123, 34, 78, 97, 109, 101, 34, 58, 32, 34, 97, 108, 34, 125]

/-! # Theorems -/

/-! ## Association-list map lemmas -/

theorem lookupA_removeA {α β : Type} [DecidableEq α] (l : List (α × β)) (k k' : α) :
    lookupA (removeA l k) k' = if k = k' then none else lookupA l k' := by
  induction l with
  | nil => simp [removeA, lookupA]
  | cons p rest ih =>
    by_cases hp : p.1 = k
    · have hdrop : removeA (p :: rest) k = removeA rest k := by
        simp [removeA, List.filter_cons, hp]
      rw [hdrop, ih]
      by_cases hk : k = k'
      · simp [hk]
      · have hpk : ¬ p.1 = k' := by rw [hp]; exact hk
        simp [hk, lookupA, hpk]
    · have hkeep : removeA (p :: rest) k = p :: removeA rest k := by
        simp [removeA, List.filter_cons, hp]
      rw [hkeep]
      by_cases hpk : p.1 = k'
      · have hk : ¬ k = k' := fun h => hp (by rw [h, hpk])
        simp [lookupA, hpk, hk]
      · simp [lookupA, hpk, ih]

theorem lookupA_insertA {α β : Type} [DecidableEq α] (l : List (α × β))
    (k : α) (v : β) (k' : α) :
    lookupA (insertA l k v) k' = if k = k' then some v else lookupA l k' := by
  by_cases hk : k = k' <;> simp [insertA, lookupA, hk, lookupA_removeA]

theorem lookupA_insertA_self {α β : Type} [DecidableEq α] (l : List (α × β))
    (k : α) (v : β) : lookupA (insertA l k v) k = some v := by
  simp [lookupA_insertA]

theorem lookupA_insertA_ne {α β : Type} [DecidableEq α] (l : List (α × β))
    (k : α) (v : β) (k' : α) (h : k ≠ k') :
    lookupA (insertA l k v) k' = lookupA l k' := by
  simp [lookupA_insertA, h]

theorem containsA_insertA {α β : Type} [DecidableEq α] (l : List (α × β))
    (k : α) (v : β) (k' : α) (h : containsA l k' = true) :
    containsA (insertA l k v) k' = true := by
  by_cases hk : k = k'
  · simp [containsA, lookupA_insertA, hk]
  · simpa [containsA, lookupA_insertA, hk] using h

theorem mem_keysA_of_lookupA {α β : Type} [DecidableEq α] {l : List (α × β)}
    {k : α} {v : β} (h : lookupA l k = some v) : k ∈ keysA l := by
  induction l with
  | nil => simp [lookupA] at h
  | cons p rest ih =>
    by_cases hp : p.1 = k
    · simp [keysA, hp.symm]
    · simp [lookupA, hp] at h
      simp [keysA] at ih ⊢
      exact Or.inr (ih h)

theorem first_free_id_not_mem {α : Type} (m : List (Nat × α)) :
    lookupA m (first_free_id m) = none := by
  unfold first_free_id
  cases hf : (List.range (m.length + 1)).find? (fun n => !containsA m n) with
  | some n =>
    have hpred := List.find?_some hf
    simp only [Bool.not_eq_true'] at hpred
    simp only [containsA] at hpred
    cases hl : lookupA m n with
    | none => rfl
    | some v => rw [hl] at hpred; simp at hpred
  | none =>
    exfalso
    have hall : ∀ x ∈ List.range (m.length + 1), containsA m x = true := by
      intro x hx
      have := List.find?_eq_none.mp hf x hx
      simpa using this
    have hsub : List.range (m.length + 1) ⊆ keysA m := by
      intro x hx
      rcases Option.isSome_iff_exists.mp (hall x hx) with ⟨v, hv⟩
      exact mem_keysA_of_lookupA hv
    have hlen := (List.subperm_of_subset (List.nodup_range _) hsub).length_le
    simp [keysA] at hlen

/-! ## Name normalization: C10

The counterexample to idempotence is the string
a, U+0301 (combining acute, class 230), U+3042 (hiragana A, a
non-ASCII alphabetic starter), U+0316 (combining grave below, class
220): NFD leaves it untouched, the filter drops the starter between
the two marks, and the second pass reorders the now-adjacent marks by
combining class.
-/

theorem splitWsGo_flatten (l : List Char) : ∀ run : List Char,
    (∀ c ∈ run, isWs c = false) →
    (splitWsGo run l).flatten = run ++ l.filter (fun c => !isWs c) := by
  induction l with
  | nil =>
    intro run h
    by_cases hr : run = [] <;> simp [splitWsGo, hr]
  | cons c communicate ih =>
    intro run h
    by_cases hc : isWs c = true
    · by_cases hr : run = []
      · simp [splitWsGo, hc, hr, ih [] (by simp)]
      · simp [splitWsGo, hc, hr, ih [] (by simp)]
    · have hc' : isWs c = false := by simpa using hc
      have h2 : ∀ d ∈ run ++ [c], isWs d = false := by
        intro d hd
        rcases List.mem_append.mp hd with hd | hd
        · exact h d hd
        · simp at hd; subst hd; exact hc'
      simp [splitWsGo, hc', ih (run ++ [c]) h2]

theorem collapseL_eq_filter (l : List Char) :
    collapseL l =
      ((nfd ((trimL l).map lowerChar)).filter
        (fun c => c.toNat < 128 || !(isAlpha c))).filter (fun c => !isWs c) := by
  unfold collapseL
  rw [splitWsGo_flatten _ [] (by simp)]
  simp

theorem C10_helper_no_ws (s : String) : ∀ c ∈ (collapse s).data, isWs c = false := by
  intro c hc
  have : (collapse s).data = collapseL s.data := rfl
  rw [this, collapseL_eq_filter] at hc
  have := List.of_mem_filter hc
  simpa using this

theorem toNat_ofNat_valid {n : Nat} (h : n.isValidChar) :
    (Char.ofNat n).toNat = n := by
  unfold Char.ofNat
  simp [h, Char.ofNatAux, Char.toNat, UInt32.toNat, BitVec.toNat_ofNatLt]

theorem lowerChar_ascii {c : Char} (h : c.toNat < 128) :
    (lowerChar c).toNat < 128 ∧ lowerChar (lowerChar c) = lowerChar c := by
  by_cases hu : 0x41 ≤ c.toNat ∧ c.toNat ≤ 0x5A
  · have hv : (c.toNat + 0x20).isValidChar := by
      left
      omega
    have ht : (Char.ofNat (c.toNat + 0x20)).toNat = c.toNat + 0x20 :=
      toNat_ofNat_valid hv
    have h1 : lowerChar c = Char.ofNat (c.toNat + 0x20) := by
      unfold lowerChar
      rw [if_pos hu]
    rw [h1]
    constructor
    · rw [ht]; omega
    · unfold lowerChar
      rw [if_neg (by rw [ht]; omega)]
  · have h1 : lowerChar c = c := by
      unfold lowerChar
      rw [if_neg hu]
    rw [h1]
    exact ⟨h, h1⟩

theorem trimL_eq_self {l : List Char} (h : ∀ c ∈ l, isWs c = false) :
    trimL l = l := by
  have drop1 : l.dropWhile isWs = l := by
    cases l with
    | nil => rfl
    | cons c cs => simp [List.dropWhile, h c (by simp)]
  unfold trimL
  rw [drop1]
  have h2 : ∀ c ∈ l.reverse, isWs c = false := by
    intro c hc; exact h c (List.mem_reverse.mp hc)
  have drop2 : l.reverse.dropWhile isWs = l.reverse := by
    cases hr : l.reverse with
    | nil => rfl
    | cons c cs =>
      have : isWs c = false := h2 c (by rw [hr]; simp)
      simp [List.dropWhile, this]
  rw [drop2, List.reverse_reverse]

theorem reorderGo_all_starters {l : List Char} (h : ∀ c ∈ l, ccc c = 0) :
    reorderGo [] l = l := by
  induction l with
  | nil => rfl
  | cons c cs ih =>
    have hc : ccc c = 0 := h c (by simp)
    simp [reorderGo, hc, cccSort, ih (fun d hd => h d (by simp [hd]))]

theorem flatMap_decomp (l : List Char) : l.flatMap decomp = l := by
  induction l with
  | nil => rfl
  | cons c cs ih => simp [List.flatMap_cons, decomp, ih]

theorem nfd_all_starters {l : List Char} (h : ∀ c ∈ l, ccc c = 0) :
    nfd l = l := by
  unfold nfd
  rw [flatMap_decomp]
  exact reorderGo_all_starters h

theorem ccc_ascii {c : Char} (h : c.toNat < 128) : ccc c = 0 := by
  unfold ccc
  rw [if_neg (by omega), if_neg (by omega)]

theorem trimL_subset {l : List Char} {c : Char} (h : c ∈ trimL l) : c ∈ l := by
  unfold trimL at h
  have h1 := List.mem_reverse.mp h
  have h2 := (List.dropWhile_sublist isWs).subset h1
  have h3 := List.mem_reverse.mp h2
  exact (List.dropWhile_sublist isWs).subset h3

theorem collapseL_ascii_mem {l : List Char} (hl : ∀ c ∈ l, c.toNat < 128) :
    ∀ c ∈ collapseL l, c.toNat < 128 ∧ lowerChar c = c ∧ isWs c = false := by
  have hmapA : ∀ d ∈ (trimL l).map lowerChar, d.toNat < 128 ∧ lowerChar d = d := by
    intro d hd
    rcases List.mem_map.mp hd with ⟨d0, hd0, rfl⟩
    have hd0a : d0.toNat < 128 := hl d0 (trimL_subset hd0)
    exact ⟨(lowerChar_ascii hd0a).1, (lowerChar_ascii hd0a).2⟩
  intro c hc
  rw [collapseL_eq_filter] at hc
  have hws : isWs c = false := by simpa using List.of_mem_filter hc
  have hc2 := List.mem_of_mem_filter hc
  have hc3 := List.mem_of_mem_filter hc2
  have hnfd : nfd ((trimL l).map lowerChar) = (trimL l).map lowerChar :=
    nfd_all_starters (fun d hd => ccc_ascii (hmapA d hd).1)
  rw [hnfd] at hc3
  exact ⟨(hmapA c hc3).1, (hmapA c hc3).2, hws⟩

theorem collapseL_ascii_idem {l : List Char} (hl : ∀ c ∈ l, c.toNat < 128) :
    collapseL (collapseL l) = collapseL l := by
  have hmem := collapseL_ascii_mem hl
  set r := collapseL l with hr
  have htrim : trimL r = r := trimL_eq_self (fun c hc => (hmem c hc).2.2)
  have hmap : r.map lowerChar = r :=
    List.map_congr_left (fun c hc => (hmem c hc).2.1) |>.trans (List.map_id r) |>.symm ▸ rfl
  have hnfd : nfd r = r := nfd_all_starters (fun c hc => ccc_ascii (hmem c hc).1)
  have hfilter1 : r.filter (fun c => c.toNat < 128 || !(isAlpha c)) = r := by
    apply List.filter_eq_self.mpr
    intro c hc
    simp [(hmem c hc).1]
  have hfilter2 : r.filter (fun c => !isWs c) = r := by
    apply List.filter_eq_self.mpr
    intro c hc
    simp [(hmem c hc).2.2]
  calc collapseL r
      = ((nfd ((trimL r).map lowerChar)).filter
          (fun c => c.toNat < 128 || !(isAlpha c))).filter (fun c => !isWs c) :=
        collapseL_eq_filter r
    _ = r := by rw [htrim, hmap, hnfd, hfilter1, hfilter2]

/-- C10 (corrected, counterexample): collapse is not idempotent.  On
the string a, U+0301, U+3042, U+0316 the first pass drops the starter
U+3042 between two combining marks of classes 230 and 220, and the
second pass's canonical ordering swaps the marks. -/
theorem C10_counterexample :
    collapse (collapse ⟨['a', Char.ofNat 0x301, Char.ofNat 0x3042, Char.ofNat 0x316]⟩)
      ≠ collapse ⟨['a', Char.ofNat 0x301, Char.ofNat 0x3042, Char.ofNat 0x316]⟩ := by
  decide

/-- C10 (amended): the output of collapse never contains a whitespace
character, and collapse is idempotent on ASCII strings (idempotence
fails in general, see the counterexample). -/
theorem C10_amended :
    (∀ s : String, ∀ c ∈ (collapse s).data, isWs c = false) ∧
    (∀ s : String, (∀ c ∈ s.data, c.toNat < 128) →
      collapse (collapse s) = collapse s) := by
  refine ⟨C10_helper_no_ws, fun s h => ?_⟩
  show (⟨collapseL (collapse s).data⟩ : String) = ⟨collapseL s.data⟩
  have hdata : (collapse s).data = collapseL s.data := rfl
  rw [hdata, collapseL_ascii_idem h]

/-- C10 witness: the amended theorem applied to concrete strings. -/
theorem C10_amended_witness :
    isWs 'a' = false ∧ collapse (collapse "A b") = collapse "A b" :=
  ⟨C10_amended.1 "ab" 'a' (by decide), C10_amended.2 "A b" (by decide)⟩

/-! ## Wire codec roundtrip: C6 -/

theorem jsonStrList_map (l : List String) :
    jsonStrList (l.map Json.str) = some l := by
  induction l with
  | nil => rfl
  | cons s rest ih => simp [jsonStrList, ih]

/-- C6 (confirmed): for every protocol message variant, including all
Op subcommands and Misc shapes, deserializing the serialized form
yields the corresponding Rcvr value with the same content.  The codec
is modelled at the JSON-value level: the byte layer on either side of
it is serde_json's printer and parser. -/
theorem C6_roundtrip (m : Sndr) :
    rcvrFromJson (sndrToJson m) = some (rcvrOfSndr m) := by
  cases m with
  | Text who lines =>
    simp [sndrToJson, rcvrFromJson, rcvrOfSndr, getStrField, getStrListField,
      lookupA, removeA, jsonStrList_map]
  | Ping => rfl
  | Priv who text =>
    simp [sndrToJson, rcvrFromJson, rcvrOfSndr, getStrField, lookupA, removeA]
  | Logout s => simp [sndrToJson, rcvrFromJson, rcvrOfSndr]
  | Name s => simp [sndrToJson, rcvrFromJson, rcvrOfSndr]
  | Join s => simp [sndrToJson, rcvrFromJson, rcvrOfSndr]
  | Query what arg =>
    simp [sndrToJson, rcvrFromJson, rcvrOfSndr, getStrField, lookupA, removeA]
  | Block s => simp [sndrToJson, rcvrFromJson, rcvrOfSndr]
  | Unblock s => simp [sndrToJson, rcvrFromJson, rcvrOfSndr]
  | Op o =>
    cases o <;>
      simp [sndrToJson, rcvrFromJson, rcvrOfSndr, sndOpToJson, rcvOpFromJson,
        rcvOfSndOp]
  | Info s => simp [sndrToJson, rcvrFromJson, rcvrOfSndr]
  | Err s => simp [sndrToJson, rcvrFromJson, rcvrOfSndr]
  | Misc what data alt =>
    simp [sndrToJson, rcvrFromJson, rcvrOfSndr, getStrField, getStrListField,
      lookupA, removeA, jsonStrList_map]

/-! ## Offset recovery: the get_actual_offset loop inverts the
serde_json position of any index inside (or just past) the buffer. -/

theorem gao_done (dat : List Byte) : ∀ k n ln, k ≤ ln →
    gaoLoop k dat n ln = some n := by
  induction dat with
  | nil => intro k n ln h; simp [gaoLoop, Nat.not_lt.mpr h]
  | cons b bs ih => intro k n ln h; simp [gaoLoop, Nat.not_lt.mpr h]

theorem gao_shift_n (dat : List Byte) : ∀ k n ln,
    gaoLoop k dat (n + 1) ln = (gaoLoop k dat n ln).map (· + 1) := by
  induction dat with
  | nil =>
    intro k n ln
    by_cases h : ln < k <;> simp [gaoLoop, h]
  | cons b bs ih =>
    intro k n ln
    by_cases h : ln < k <;> simp [gaoLoop, h, ih]

theorem gao_shift (dat : List Byte) : ∀ k n ln j,
    gaoLoop (k + j) dat n (ln + j) = gaoLoop k dat n ln := by
  induction dat with
  | nil =>
    intro k n ln j
    by_cases h : ln < k
    · simp [gaoLoop, h, Nat.add_lt_add_right h j]
    · simp [gaoLoop, h, show ¬ ln + j < k + j by omega]
  | cons b bs ih =>
    intro k n ln j
    by_cases h : ln < k
    · by_cases hb : b = NEWLINE
      · simp only [gaoLoop, if_pos (show ln + j < k + j by omega), if_pos h, hb,
          if_pos rfl, reduceIte]
        have := ih k (n + 1) (ln + 1) j
        simpa [Nat.add_right_comm ln 1 j] using this
      · simp [gaoLoop, h, show ln + j < k + j by omega, hb, ih]
    · simp [gaoLoop, h, show ¬ ln + j < k + j by omega]

theorem countNLTake_le (dat : List Byte) : ∀ i j, i ≤ j →
    countNLTake dat i ≤ countNLTake dat j := by
  induction dat with
  | nil =>
    intro i j _
    cases i <;> cases j <;> simp [countNLTake]
  | cons b bs ih =>
    intro i j hij
    cases i with
    | zero => simp [countNLTake]
    | succ i0 =>
      cases j with
      | zero => omega
      | succ j0 =>
        simp only [countNLTake]
        have := ih i0 j0 (by omega)
        omega

theorem gao_some (dat : List Byte) : ∀ k, k ≤ countNLTake dat dat.length →
    gaoLoop k dat 0 0 = some (nlAfter dat k) := by
  induction dat with
  | nil =>
    intro k hk
    simp [countNLTake] at hk
    simp [hk, gaoLoop, nlAfter]
  | cons b bs ih =>
    intro k hk
    cases k with
    | zero => simp [gao_done (b :: bs) 0 0 0 (le_refl 0), nlAfter]
    | succ k0 =>
      by_cases hb : b = NEWLINE
      · simp only [gaoLoop, if_pos (Nat.zero_lt_succ k0), hb, if_pos rfl, reduceIte]
        have h1 : gaoLoop (k0 + 1) bs 1 1 = gaoLoop k0 bs 1 0 := gao_shift bs k0 1 0 1
        have h2 : gaoLoop k0 bs 1 0 = (gaoLoop k0 bs 0 0).map (· + 1) :=
          gao_shift_n bs k0 0 0
        have hk0 : k0 ≤ countNLTake bs bs.length := by
          simp only [List.length_cons, countNLTake] at hk
          rw [if_pos hb] at hk
          omega
        rw [h1, h2, ih k0 hk0]
        simp [nlAfter, hb, Nat.add_comm]
      · simp only [gaoLoop, if_pos (Nat.zero_lt_succ k0), if_neg hb]
        have h2 : gaoLoop (k0 + 1) bs 1 0 = (gaoLoop (k0 + 1) bs 0 0).map (· + 1) :=
          gao_shift_n bs (k0 + 1) 0 0
        have hk0 : k0 + 1 ≤ countNLTake bs bs.length := by
          simp only [List.length_cons, countNLTake] at hk
          rw [if_neg hb] at hk
          omega
        rw [h2, ih (k0 + 1) hk0]
        simp [nlAfter, hb, Nat.add_comm]

theorem gao_none (dat : List Byte) : ∀ k n ln,
    ln + countNLTake dat dat.length < k → gaoLoop k dat n ln = none := by
  induction dat with
  | nil =>
    intro k n ln h
    simp [countNLTake] at h
    simp [gaoLoop, h]
  | cons b bs ih =>
    intro k n ln h
    have hln : ln < k := by
      simp only [List.length_cons, countNLTake] at h
      omega
    simp only [gaoLoop, if_pos hln]
    apply ih
    simp only [List.length_cons, countNLTake] at h
    by_cases hb : b = NEWLINE <;> simp [hb] at h ⊢ <;> omega

theorem posOf_cons_nl (b : Byte) (bs : List Byte) (i0 : Nat) (hb : b = NEWLINE) :
    posOf (b :: bs) (i0 + 1) = ((posOf bs i0).1 + 1, (posOf bs i0).2) := by
  simp only [posOf]
  rw [if_pos hb]

theorem posOf_cons_other (b : Byte) (bs : List Byte) (i0 : Nat)
    (hb : ¬ b = NEWLINE) :
    posOf (b :: bs) (i0 + 1) =
      if (posOf bs i0).1 = 1 then (1, (posOf bs i0).2 + 1) else posOf bs i0 := by
  simp only [posOf]
  rw [if_neg hb]

theorem countNLTake_cons (b : Byte) (bs : List Byte) (i0 : Nat) :
    countNLTake (b :: bs) (i0 + 1) =
      (if b = NEWLINE then 1 else 0) + countNLTake bs i0 := rfl

theorem posOf_fst (dat : List Byte) : ∀ i,
    (posOf dat i).1 = countNLTake dat i + 1 := by
  induction dat with
  | nil => intro i; cases i <;> simp [posOf, countNLTake]
  | cons b bs ih =>
    intro i
    cases i with
    | zero => simp [posOf, countNLTake]
    | succ i0 =>
      rw [countNLTake_cons]
      by_cases hb : b = NEWLINE
      · rw [posOf_cons_nl b bs i0 hb, if_pos hb]
        have := ih i0
        omega
      · rw [posOf_cons_other b bs i0 hb, if_neg hb]
        have := ih i0
        by_cases h1 : (posOf bs i0).1 = 1
        · rw [if_pos h1]
          omega
        · rw [if_neg h1]
          omega

theorem posOf_snd_pos (dat : List Byte) : ∀ i, 1 ≤ (posOf dat i).2 := by
  induction dat with
  | nil => intro i; cases i <;> simp [posOf]
  | cons b bs ih =>
    intro i
    cases i with
    | zero => simp [posOf]
    | succ i0 =>
      by_cases hb : b = NEWLINE
      · rw [posOf_cons_nl b bs i0 hb]
        exact ih i0
      · rw [posOf_cons_other b bs i0 hb]
        by_cases h1 : (posOf bs i0).1 = 1
        · rw [if_pos h1]
          have := ih i0
          omega
        · rw [if_neg h1]
          exact ih i0

theorem nlAfter_posOf (dat : List Byte) : ∀ i, i ≤ dat.length →
    nlAfter dat (countNLTake dat i) + (posOf dat i).2 = i + 1 := by
  induction dat with
  | nil =>
    intro i h
    simp at h
    simp [h, countNLTake, nlAfter, posOf]
  | cons b bs ih =>
    intro i h
    cases i with
    | zero => simp [countNLTake, nlAfter, posOf]
    | succ i0 =>
      have hi0 : i0 ≤ bs.length := by simpa using h
      have IH := ih i0 hi0
      rw [countNLTake_cons]
      by_cases hb : b = NEWLINE
      · rw [if_pos hb, posOf_cons_nl b bs i0 hb]
        have hnl : nlAfter (b :: bs) (1 + countNLTake bs i0) =
            1 + nlAfter bs (countNLTake bs i0) := by
          have : 1 + countNLTake bs i0 = countNLTake bs i0 + 1 := by omega
          rw [this]
          simp only [nlAfter]
          rw [if_pos hb]
        rw [hnl]
        simp only []
        omega
      · rw [if_neg hb, posOf_cons_other b bs i0 hb]
        by_cases h1 : (posOf bs i0).1 = 1
        · have hcz : countNLTake bs i0 = 0 := by
            have := posOf_fst bs i0
            omega
          rw [if_pos h1, hcz]
          rw [hcz] at IH
          simp only [nlAfter] at IH ⊢
          omega
        · have hnz : countNLTake bs i0 ≠ 0 := by
            have := posOf_fst bs i0
            omega
          rcases Nat.exists_eq_succ_of_ne_zero hnz with ⟨k0, hk0⟩
          rw [if_neg h1, hk0]
          simp only [Nat.zero_add, Nat.succ_eq_add_one]
          have hnl : nlAfter (b :: bs) (k0 + 1) = 1 + nlAfter bs (k0 + 1) := by
            simp only [nlAfter]
            rw [if_neg hb]
          rw [hk0] at IH
          simp only [Nat.succ_eq_add_one] at IH
          rw [hnl]
          omega

/-! ## Scanner lemmas -/

theorem scanGo_nil (st : SMode) (i : Nat) :
    scanGo st i [] = (match st with | .prim => .done i | _ => .incomplete) := by
  cases st <;> rfl

theorem scanGo_cons (st : SMode) (i : Nat) (b : Byte) (bs : List Byte) :
    scanGo st i (b :: bs) =
      (match scanStep st i b with
       | .inl st2 => scanGo st2 (i + 1) bs
       | .inr r => r) := by
  cases st <;> simp only [scanGo, scanStep] <;> (repeat' split) <;> simp_all

theorem scanStep_done_le (st : SMode) (i : Nat) (b : Byte) (n : Nat)
    (h : scanStep st i b = .inr (.done n)) : n ≤ i + 1 := by
  cases st <;> simp only [scanStep] at h <;> (repeat' split at h) <;>
    simp at h <;> omega

theorem scanStep_bad_eq (st : SMode) (i : Nat) (b : Byte) (j : Nat)
    (h : scanStep st i b = .inr (.bad j)) : j = i := by
  cases st <;> simp only [scanStep] at h <;> (repeat' split at h) <;>
    simp at h <;> omega

theorem scan_done_le (xs : List Byte) : ∀ (st : SMode) (i n : Nat),
    scanGo st i xs = .done n → n ≤ i + xs.length := by
  induction xs with
  | nil =>
    intro st i n h
    rw [scanGo_nil] at h
    cases st <;> simp at h <;> omega
  | cons b bs ih =>
    intro st i n h
    rw [scanGo_cons] at h
    cases hs : scanStep st i b with
    | inl st2 =>
      rw [hs] at h
      have := ih st2 (i + 1) n h
      simp only [List.length_cons]
      omega
    | inr r =>
      rw [hs] at h
      simp only [] at h
      subst h
      have := scanStep_done_le st i b n hs
      simp only [List.length_cons]
      omega

theorem scan_bad_lt (xs : List Byte) : ∀ (st : SMode) (i j : Nat),
    scanGo st i xs = .bad j → j < i + xs.length := by
  induction xs with
  | nil =>
    intro st i j h
    rw [scanGo_nil] at h
    cases st <;> simp at h
  | cons b bs ih =>
    intro st i j h
    rw [scanGo_cons] at h
    cases hs : scanStep st i b with
    | inl st2 =>
      rw [hs] at h
      have := ih st2 (i + 1) j h
      simp only [List.length_cons]
      omega
    | inr r =>
      rw [hs] at h
      simp only [] at h
      subst h
      have := scanStep_bad_eq st i b j hs
      simp only [List.length_cons]
      omega

theorem scan_extend (xs : List Byte) : ∀ (st : SMode) (i n : Nat),
    scanGo st i xs = .done n → ∀ (ys : List Byte), ys.head? = some 123 →
    scanGo st i (xs ++ ys) = .done n := by
  induction xs with
  | nil =>
    intro st i n h ys hy
    rw [scanGo_nil] at h
    cases ys with
    | nil => simp at hy
    | cons y tl =>
      simp at hy
      subst hy
      cases st <;> simp at h
      subst h
      rw [List.nil_append, scanGo_cons]
      have hstep : scanStep SMode.prim i 123 = Sum.inr (ScanR.done i) := by
        norm_num [scanStep, primB]
      rw [hstep]
  | cons b bs ih =>
    intro st i n h ys hy
    rw [List.cons_append, scanGo_cons]
    rw [scanGo_cons] at h
    cases hs : scanStep st i b with
    | inl st2 =>
      rw [hs] at h
      simp only [] at h
      show scanGo st2 (i + 1) (bs ++ ys) = ScanR.done n
      exact ih st2 (i + 1) n h ys hy
    | inr r =>
      rw [hs] at h
      simp only [] at h
      show r = ScanR.done n
      exact h

theorem gao_posOf (dat : List Byte) (i : Nat) (h : i ≤ dat.length) :
    get_actual_offset dat (posOf dat i).1 (posOf dat i).2 = .ok i := by
  unfold get_actual_offset
  have hline : (posOf dat i).1 - 1 = countNLTake dat i := by
    have := posOf_fst dat i
    omega
  have hle : countNLTake dat i ≤ countNLTake dat dat.length :=
    countNLTake_le dat i dat.length h
  rw [hline, gao_some dat _ hle]
  have hsum := nlAfter_posOf dat i h
  have hpos := posOf_snd_pos dat i
  have : nlAfter dat (countNLTake dat i) + ((posOf dat i).2 - 1) = i := by omega
  simp [this]

/-! ## Whitespace-scan lemmas -/

theorem fnw_some_lt (l : List Byte) : ∀ j, fnw l = some j → j < l.length := by
  induction l with
  | nil => intro j h; simp [fnw] at h
  | cons b bs ih =>
    intro j h
    by_cases hb : jsonWsB b = true
    · simp only [fnw, if_pos hb] at h
      cases hf : fnw bs with
      | none => rw [hf] at h; simp at h
      | some j0 =>
        rw [hf] at h
        simp at h
        have := ih j0 hf
        simp only [List.length_cons]
        omega
    · simp only [fnw, if_neg hb] at h
      simp at h
      simp [← h]

theorem fnw_append_none (l : List Byte) : ∀ (c : Byte) (tl : List Byte),
    fnw l = none → jsonWsB c = false →
    fnw (l ++ c :: tl) = some l.length := by
  induction l with
  | nil => intro c tl _ hc; simp [fnw, hc]
  | cons b bs ih =>
    intro c tl h hc
    by_cases hb : jsonWsB b = true
    · simp only [fnw, if_pos hb] at h ⊢
      cases hf : fnw bs with
      | none =>
        show Option.map (fun x => x + 1) (fnw (bs ++ c :: tl)) = some (b :: bs).length
        rw [ih c tl hf hc]
        simp
      | some j0 => rw [hf] at h; simp at h
    · simp only [fnw, if_neg hb] at h
      simp at h

theorem firstNonWs_extend (enc : List Byte) (n : Nat) (c : Byte) (tl : List Byte)
    (hn : n ≤ enc.length) (hfw : firstNonWs enc n = none) (hc : jsonWsB c = false) :
    firstNonWs (enc ++ c :: tl) n = some enc.length := by
  unfold firstNonWs at hfw ⊢
  have hdrop : (enc ++ c :: tl).drop n = enc.drop n ++ c :: tl :=
    List.drop_append_of_le_length hn
  rw [hdrop]
  have hnone : fnw (enc.drop n) = none := by
    cases hf : fnw (enc.drop n) with
    | none => rfl
    | some j => rw [hf] at hfw; simp at hfw
  rw [fnw_append_none (enc.drop n) c tl hnone hc]
  simp [List.length_drop]
  omega

theorem firstNonWs_some_le (dat : List Byte) (n i : Nat)
    (h : firstNonWs dat n = some i) : i < dat.length := by
  unfold firstNonWs at h
  cases hf : fnw (dat.drop n) with
  | none => rw [hf] at h; simp at h
  | some j =>
    rw [hf] at h
    simp at h
    have := fnw_some_lt (dat.drop n) j hf
    simp [List.length_drop] at this
    omega

/-! ## Sock::try_get: no crash (C3) and framing of concatenated
objects (C2) -/

theorem fromSlice_synErr_pos (dat : List Byte) (L C : Nat)
    (h : fromSlice dat = .synErr L C) :
    ∃ i, i ≤ dat.length ∧ L = (posOf dat i).1 ∧ C = (posOf dat i).2 := by
  unfold fromSlice at h
  cases hscan : scanGo .lead 0 dat with
  | incomplete => rw [hscan] at h; simp at h
  | bad i =>
    rw [hscan] at h
    simp only [DecodeRes.synErr.injEq] at h
    have := scan_bad_lt dat .lead 0 i hscan
    exact ⟨i, by omega, h.1.symm, h.2.symm⟩
  | done n =>
    rw [hscan] at h
    simp only [] at h
    cases hfw : firstNonWs dat n with
    | some i =>
      rw [hfw] at h
      simp only [DecodeRes.synErr.injEq] at h
      have := firstNonWs_some_le dat n i hfw
      exact ⟨i, by omega, h.1.symm, h.2.symm⟩
    | none =>
      rw [hfw] at h
      simp only [] at h
      cases hp : parseJson (dat.take n) with
      | none => rw [hp] at h; simp at h
      | some v =>
        rw [hp] at h
        simp only [] at h
        cases hr : rcvrFromJson v <;> rw [hr] at h <;> simp at h

theorem sockTryGet_no_crash (cur : List Byte) : (sockTryGet cur).1 ≠ .crash := by
  unfold sockTryGet
  cases hfs : fromSlice cur with
  | ok m => simp [tryGetCore]
  | eof => simp [tryGetCore]
  | dataErr => simp [tryGetCore]
  | synErr L C =>
    rcases fromSlice_synErr_pos cur L C hfs with ⟨i, hi, hL, hC⟩
    subst hL
    subst hC
    simp only [tryGetCore]
    rw [gao_posOf cur i hi]
    simp only []
    cases hsecond : fromSlice (cur.take i) <;> simp

theorem gao_overrun (dat : List Byte) (line col : Nat)
    (h : countNLTake dat dat.length < line - 1) :
    get_actual_offset dat line col =
      .error "Overran buffer seeking error location." := by
  unfold get_actual_offset
  rw [gao_none dat (line - 1) 0 0 (by omega)]

/-- C3 (counterexample): were the decoder to report a syntax-error
location past the buffered bytes -- here line 5 of a one-byte buffer
-- Sock::try_get would crash on its unwrap of get_actual_offset
rather than fail with the buffer-overrun error. -/
theorem C3_counterexample :
    (tryGetCore [123] (.synErr 5 1)).1 = .crash ∧
    get_actual_offset [123] 5 1 =
      .error "Overran buffer seeking error location." := by
  constructor
  · rfl
  · rfl

/-- C3 (amended): for every receive-buffer content, Sock::try_get
returns one of its three declared results and never reaches its crash
branch, because the positions the decoder reports always lie within
or just past the buffer; get_actual_offset itself does fail with the
buffer-overrun error on a location past the buffered bytes, but
Sock::try_get unwraps that failure -- it would crash rather than
return it. -/
theorem C3_amended :
    (∀ cur : List Byte, (sockTryGet cur).1 ≠ TGRes.crash) ∧
    (∀ (dat : List Byte) (line col : Nat),
      countNLTake dat dat.length < line - 1 →
      get_actual_offset dat line col =
        .error "Overran buffer seeking error location.") ∧
    (∀ (cur : List Byte) (line col : Nat),
      get_actual_offset cur line col =
        .error "Overran buffer seeking error location." →
      tryGetCore cur (.synErr line col) = (.crash, cur)) := by
  refine ⟨sockTryGet_no_crash, gao_overrun, ?_⟩
  intro cur line col h
  simp only [tryGetCore]
  rw [h]

/-- C3 witness: the amended theorem applied at concrete inputs. -/
theorem C3_amended_witness :
    (sockTryGet [123]).1 ≠ TGRes.crash ∧
    get_actual_offset [91] 3 1 =
      .error "Overran buffer seeking error location." ∧
    tryGetCore [91] (.synErr 3 1) = (.crash, [91]) :=
  ⟨C3_amended.1 [123], C3_amended.2.1 [91] 3 1 (by decide),
    C3_amended.2.2 [91] 3 1 (C3_amended.2.1 [91] 3 1 (by decide))⟩

theorem sockTryGet_concat (m : Rcvr) (enc rest : List Byte)
    (h1 : fromSlice enc = .ok m) (hh : rest.head? = some 123) :
    sockTryGet (enc ++ rest) = (.got m, rest) := by
  have h1' := h1
  unfold fromSlice at h1'
  cases hscan : scanGo .lead 0 enc with
  | incomplete => rw [hscan] at h1'; simp at h1'
  | bad i => rw [hscan] at h1'; simp at h1'
  | done n =>
    rw [hscan] at h1'
    simp only [] at h1'
    cases hfw : firstNonWs enc n with
    | some i => rw [hfw] at h1'; simp at h1'
    | none =>
      have hn_le : n ≤ enc.length := by
        have := scan_done_le enc .lead 0 n hscan
        omega
      cases rest with
      | nil => simp at hh
      | cons r0 tl =>
        simp at hh
        subst hh
        have hscan2 : scanGo .lead 0 (enc ++ 123 :: tl) = .done n :=
          scan_extend enc .lead 0 n hscan (123 :: tl) rfl
        have hfw2 : firstNonWs (enc ++ 123 :: tl) n = some enc.length :=
          firstNonWs_extend enc n 123 tl hn_le hfw (by decide)
        have hfs2 : fromSlice (enc ++ 123 :: tl) =
            .synErr (posOf (enc ++ 123 :: tl) enc.length).1
              (posOf (enc ++ 123 :: tl) enc.length).2 := by
          unfold fromSlice
          rw [hscan2]
          simp only []
          rw [hfw2]
        unfold sockTryGet
        rw [hfs2]
        simp only [tryGetCore]
        have hgao : get_actual_offset (enc ++ 123 :: tl)
            (posOf (enc ++ 123 :: tl) enc.length).1
            (posOf (enc ++ 123 :: tl) enc.length).2 = .ok enc.length :=
          gao_posOf (enc ++ 123 :: tl) enc.length (by simp)
        rw [hgao]
        have htake : (enc ++ 123 :: tl).take enc.length = enc := List.take_left enc _
        have hdrop : (enc ++ 123 :: tl).drop enc.length = 123 :: tl :=
          List.drop_left enc _
        simp only []
        rw [htake, hdrop, h1]

/-- C2 (confirmed): a receive buffer holding one complete encoded
message followed by bytes that begin another object decodes to that
message, leaving exactly the trailing bytes in the buffer; and a
buffer in which the scanner finds no complete object yields None with
the buffer unchanged. -/
theorem C2_framing_split (m : Rcvr) (enc rest : List Byte)
    (h1 : fromSlice enc = .ok m) (hh : rest.head? = some 123) :
    sockTryGet (enc ++ rest) = (.got m, rest) ∧
    (∀ dat : List Byte, scanGo .lead 0 dat = .incomplete →
      sockTryGet dat = (.pending, dat)) := by
  refine ⟨sockTryGet_concat m enc rest h1 hh, fun dat hdat => ?_⟩
  have heof : fromSlice dat = .eof := by
    unfold fromSlice
    rw [hdat]
  unfold sockTryGet
  rw [heof]
  rfl

/-- C2 witness: the encoding of Name("al") followed by an opening
brace. -/
theorem C2_witness :
    sockTryGet (encNameAl ++ [123]) = (.got (.Name "al"), [123]) ∧
    (∀ dat : List Byte, scanGo .lead 0 dat = .incomplete →
      sockTryGet dat = (.pending, dat)) :=
  C2_framing_split (.Name "al") encNameAl [123] (by decide) (by decide)

/-! ## User::try_get quota accounting: C5 -/

theorem fromSlice_nil_ne_ok (m : Rcvr) : fromSlice [] ≠ .ok m := by
  intro h
  have : fromSlice [] = .eof := rfl
  rw [this] at h
  simp at h

theorem try_get_decoded (u : UserSt) (bs rest2 : List Byte) (m : Rcvr) (now : Nat)
    (hcur : u.current = []) (hne : bs ≠ [])
    (hsg : sockTryGet bs = (.got m, rest2)) :
    (u.try_get (.ok bs) now).1 = some m ∧
    ((u.try_get (.ok bs) now).2).quota_bytes =
      u.quota_bytes + (if m.counts then bs.length - rest2.length else 0) := by
  have hpos : 0 < bs.length := List.length_pos.mpr hne
  unfold UserSt.try_get
  simp only [hcur, List.nil_append]
  rw [if_pos hpos, hsg]
  by_cases hm : m.counts <;> simp [hm]

/-- C5 (confirmed): a successful User::try_get that decodes a message
of a counting kind (Text, Priv, Name, Join) raises the quota counter
by exactly the byte size of that one decoded message -- both when the
message sits alone in the receive buffer and when further bytes
beginning another object follow it -- and a decode of any other kind
leaves the counter unchanged (the if-expression below is zero). -/
theorem C5_quota_charge (u : UserSt) (enc rest : List Byte) (m : Rcvr) (now : Nat)
    (hcur : u.current = []) (h1 : fromSlice enc = .ok m)
    (hh : rest.head? = some 123) :
    ((u.try_get (.ok enc) now).1 = some m ∧
      ((u.try_get (.ok enc) now).2).quota_bytes =
        u.quota_bytes + (if m.counts then enc.length else 0)) ∧
    ((u.try_get (.ok (enc ++ rest)) now).1 = some m ∧
      ((u.try_get (.ok (enc ++ rest)) now).2).quota_bytes =
        u.quota_bytes + (if m.counts then enc.length else 0)) := by
  have hne : enc ≠ [] := by
    intro he
    rw [he] at h1
    exact fromSlice_nil_ne_ok m h1
  have hsg1 : sockTryGet enc = (.got m, []) := by
    unfold sockTryGet
    rw [h1]
    rfl
  constructor
  · have h := try_get_decoded u enc [] m now hcur hne hsg1
    simpa using h
  · have hne2 : enc ++ rest ≠ [] := by
      intro he
      rcases List.append_eq_nil.mp he with ⟨he1, _⟩
      exact hne he1
    have hsg2 : sockTryGet (enc ++ rest) = (.got m, rest) :=
      sockTryGet_concat m enc rest h1 hh
    have h := try_get_decoded u (enc ++ rest) rest m now hcur hne2 hsg2
    have hlen : (enc ++ rest).length - rest.length = enc.length := by
      simp [List.length_append]
    rw [hlen] at h
    exact h

/-- C5 witness: the encoding of Name("al"), a counting kind, charged
to a fresh user's quota; followed by the empty-queue shape of the
second conjunct at the same input. -/
theorem C5_witness :
    ((UserSt.new 100).try_get (.ok encNameAl) 5).1 = some (.Name "al") ∧
    (((UserSt.new 100).try_get (.ok encNameAl) 5).2).quota_bytes =
      (UserSt.new 100).quota_bytes +
        (if (Rcvr.Name "al").counts then encNameAl.length else 0) :=
  (C5_quota_charge (UserSt.new 100) encNameAl [123] (.Name "al") 5 (by decide)
    (by decide) (by decide)).1

/-! ## Flood control in process_room: C4 -/

theorem try_get_some_frame (u : UserSt) (inp : SuckInput) (now : Nat) (m : Rcvr)
    (u2 : UserSt) (h : u.try_get inp now = (some m, u2)) :
    u2.sendq = u.sendq ∧ u2.wire = u.wire ∧ u2.errs = u.errs := by
  unfold UserSt.try_get at h
  cases inp with
  | err => simp at h
  | ok bs =>
    simp only [] at h
    by_cases hp : (u.current ++ bs).length > 0
    · rw [if_pos hp] at h
      cases hsg : sockTryGet (u.current ++ bs) with
      | mk res cur2 =>
        rw [hsg] at h
        cases res with
        | got m0 =>
          simp only [] at h
          by_cases hm : m0.counts
          · rw [if_pos hm] at h
            cases h
            simp
          · rw [if_neg hm] at h
            cases h
            simp
        | pending => simp at h
        | sockErr => simp at h
        | crash => simp at h
    · rw [if_neg hp] at h
      simp at h

/-- C4 (confirmed): in a member step of process_room for a user whose
quota counter exceeds byte_limit at the start of the step, a message
decoded from the socket that tick is dropped: no handler runs, no
envelope or forced logout is added, and the only state change is the
user's own bookkeeping; and exactly when the per-tick drain brings
the counter back to byte_limit or below, the step sends that user
Err("You may send messages again.") -- otherwise it sends nothing. -/
theorem C4_over_quota_drop (cfg : ServerConfig) (now : Nat)
    (net : Nat → SuckInput) (rid uid : Nat) (S : SState) (envs : List Env)
    (logouts : List (Nat × String)) (u u2 : UserSt) (m : Rcvr)
    (hu : lookupA S.umap uid = some u)
    (hover : u.quota_bytes > cfg.byte_limit)
    (hty : (quotaStep cfg u).try_get (net uid) now = (some m, u2)) :
    memberStep cfg now net rid (S, envs, logouts) uid =
      ({ S with umap := insertA S.umap uid u2 }, envs, logouts) ∧
    u2.sent = (quotaStep cfg u).sent ∧
    ((u.drain_byte_quota cfg.byte_tick).quota_bytes ≤ cfg.byte_limit →
      (quotaStep cfg u).sent = u.sent ++ [.Err "You may send messages again."]) ∧
    (cfg.byte_limit < (u.drain_byte_quota cfg.byte_tick).quota_bytes →
      (quotaStep cfg u).sent = u.sent) := by
  refine ⟨?_, ?_, ?_, ?_⟩
  · simp only [memberStep]
    rw [hu]
    simp only []
    rw [hty]
    simp only []
    rw [if_pos hover]
  · have hf := try_get_some_frame (quotaStep cfg u) (net uid) now m u2 hty
    simp [UserSt.sent, hf.1, hf.2.1]
  · intro hle
    unfold quotaStep
    rw [if_pos ⟨hover, hle⟩]
    simp [UserSt.sent, UserSt.deliver_msg, UserSt.drain_byte_quota]
  · intro hlt
    unfold quotaStep
    rw [if_neg (fun hc => absurd hc.2 (by omega))]
    simp [UserSt.sent, UserSt.drain_byte_quota]

/-- C4 witness: a user 88 bytes over the default quota decodes a
Name message; the step drops it and, since one drain does not reach
the limit, sends nothing. -/
theorem C4_witness :
    memberStep exCfg 30000 (fun _ => SuckInput.ok encNameAl) 1
        (⟨[(100, exOverUser)], [], [], []⟩, [], []) 100 =
      ({ (⟨[(100, exOverUser)], [], [], []⟩ : SState) with
          umap := insertA [(100, exOverUser)] 100
            ((quotaStep exCfg exOverUser).try_get (.ok encNameAl) 30000).2 },
        [], []) ∧
    ((quotaStep exCfg exOverUser).try_get (.ok encNameAl) 30000).2.sent =
      (quotaStep exCfg exOverUser).sent ∧
    ((exOverUser.drain_byte_quota exCfg.byte_tick).quota_bytes ≤ exCfg.byte_limit →
      (quotaStep exCfg exOverUser).sent =
        exOverUser.sent ++ [.Err "You may send messages again."]) ∧
    (exCfg.byte_limit < (exOverUser.drain_byte_quota exCfg.byte_tick).quota_bytes →
      (quotaStep exCfg exOverUser).sent = exOverUser.sent) :=
  C4_over_quota_drop exCfg 30000 (fun _ => SuckInput.ok encNameAl) 1 100
    ⟨[(100, exOverUser)], [], [], []⟩ [] [] exOverUser
    ((quotaStep exCfg exOverUser).try_get (.ok encNameAl) 30000).2 (.Name "al")
    (by decide) (by decide) (by decide)

/-! ## Renaming to the same collapsed name: C7 -/

/-- C7 (corrected, counterexample): a Name("Alice") request from the
user displayed as "alice" normalizes to the same key, yet do_name
updates the display name to the new spelling -- the handler is not a
no-op on the display name. -/
theorem C7_counterexample :
    (lookupA (do_name 1 100 exStateC8 exCfg "Alice").1.umap 100).map UserSt.name =
      some "Alice" ∧
    (lookupA exStateC8.umap 100).map UserSt.name = some "alice" ∧
    "Alice" ≠ "alice" := by
  refine ⟨by decide, by decide, by decide⟩

/-- C7 (amended): a Name(candidate) request whose collapsed form
equals the requester's current collapsed name (and which passes the
emptiness and length guards) succeeds and emits the room-wide name
notice; the normalized-name index is unchanged as a map, every other
user entry and all room state are unchanged, and the requester's
entry changes only its display name, which becomes the candidate
spelling. -/
theorem C7_amended (S : SState) (rid uid : Nat) (u : UserSt) (cand : String)
    (cfg : ServerConfig)
    (hu : lookupA S.umap uid = some u)
    (hsame : collapse cand = u.idstr)
    (hne : collapse cand ≠ "")
    (hlen : cand.utf8ByteSize ≤ cfg.max_user_name_length)
    (hustr : lookupA S.ustr u.idstr = some uid) :
    (∃ altStr, (do_name rid uid S cfg cand).2 =
      .ok [⟨.server, .room rid, .Misc "name" [u.name, cand] altStr⟩]) ∧
    lookupA (do_name rid uid S cfg cand).1.umap uid = some { u with name := cand } ∧
    (∀ k, k ≠ uid → lookupA (do_name rid uid S cfg cand).1.umap k =
      lookupA S.umap k) ∧
    (∀ k, lookupA (do_name rid uid S cfg cand).1.ustr k = lookupA S.ustr k) ∧
    (do_name rid uid S cfg cand).1.rmap = S.rmap ∧
    (do_name rid uid S cfg cand).1.rstr = S.rstr := by
  have hset : u.set_name cand = { u with name := cand } := by
    unfold UserSt.set_name
    rw [hsame]
  have hred : ∃ altStr, do_name rid uid S cfg cand =
      ({ S with umap := insertA S.umap uid (u.set_name cand),
                ustr := insertA (removeA S.ustr u.idstr) (u.set_name cand).idstr uid },
        .ok [⟨.server, .room rid, .Misc "name" [u.name, cand] altStr⟩]) := by
    refine ⟨(fun un => s!"{un} is now known as {cand}.") u.name, ?_⟩
    unfold do_name
    rw [if_neg hne, if_neg (by omega)]
    rw [hsame, hustr, hu]
    simp only []
    rw [hu]
    simp only []
    rw [if_neg (by simp)]
  rcases hred with ⟨alt0, hred⟩
  rw [hred]
  refine ⟨⟨alt0, rfl⟩, ?_, ?_, ?_, rfl, rfl⟩
  · rw [lookupA_insertA_self, hset]
  · intro k hk
    exact lookupA_insertA_ne _ uid _ k (fun h => hk h.symm)
  · intro k
    have hidstr : (u.set_name cand).idstr = u.idstr := by
      unfold UserSt.set_name
      rw [hsame]
    rw [hidstr]
    by_cases hk : u.idstr = k
    · rw [← hk, lookupA_insertA_self, ← hk] at *
      rw [hustr]
    · rw [lookupA_insertA_ne _ _ _ _ hk, lookupA_removeA]
      rw [if_neg hk]

/-- C7 witness: the amended theorem at the counterexample state, with
candidate "Alice". -/
theorem C7_amended_witness :
    (∃ altStr, (do_name 1 100 exStateC8 exCfg "Alice").2 =
      .ok [⟨.server, .room 1, .Misc "name" [(exUser 100 "alice" 30000).name, "Alice"]
        altStr⟩]) ∧
    lookupA (do_name 1 100 exStateC8 exCfg "Alice").1.umap 100 =
      some { exUser 100 "alice" 30000 with name := "Alice" } ∧
    (∀ k, k ≠ 100 → lookupA (do_name 1 100 exStateC8 exCfg "Alice").1.umap k =
      lookupA exStateC8.umap k) ∧
    (∀ k, lookupA (do_name 1 100 exStateC8 exCfg "Alice").1.ustr k =
      lookupA exStateC8.ustr k) ∧
    (do_name 1 100 exStateC8 exCfg "Alice").1.rmap = exStateC8.rmap ∧
    (do_name 1 100 exStateC8 exCfg "Alice").1.rstr = exStateC8.rstr :=
  C7_amended exStateC8 1 100 (exUser 100 "alice" 30000) "Alice" exCfg
    (by decide) (by decide) (by decide) (by decide) (by decide)

/-- C8: an Op(Kick(username)) issued by the room operator, naming an
existing user other than the caller who is not already banned, bans
the target (appended to the ban list, removed from the invite list);
if the target is a member of the room it is removed from the member
list and appended to the lobby member list, every other room is
untouched, and the room-wide kick notice is emitted; if the target is
not a member, the only change is the ban/invite update of this room
(membership everywhere unchanged, user map unchanged) and the single
reply is addressed to the caller. -/
theorem C8_kick (S : SState) (rid uid : Nat) (username : String)
    (tid : Nat) (r lob : RoomSt) (cu tu : UserSt)
    (hr : lookupA S.rmap rid = some r)
    (hop : r.op = uid)
    (hcu : lookupA S.umap uid = some cu)
    (hnm : collapse username ≠ "")
    (hlook : lookupA S.ustr (collapse username) = some tid)
    (hne : tid ≠ uid)
    (htu : lookupA S.umap tid = some tu)
    (hnotban : tid ∉ r.bans)
    (hrid : rid ≠ 0)
    (hlob : lookupA S.rmap 0 = some lob) :
    (tid ∈ r.users →
      ((lookupA (do_op rid uid S (.Kick username)).1.rmap rid).map RoomSt.bans =
          some (r.bans ++ [tid]) ∧
       (lookupA (do_op rid uid S (.Kick username)).1.rmap rid).map RoomSt.invites =
          some (r.invites.filter (fun n => n ≠ tid)) ∧
       (lookupA (do_op rid uid S (.Kick username)).1.rmap rid).map RoomSt.users =
          some (r.users.filter (fun n => n ≠ tid)) ∧
       (lookupA (do_op rid uid S (.Kick username)).1.rmap 0).map RoomSt.users =
          some (lob.users ++ [tid]) ∧
       (∀ k, k ≠ rid → k ≠ 0 →
          lookupA (do_op rid uid S (.Kick username)).1.rmap k = lookupA S.rmap k) ∧
       (∃ alt, (do_op rid uid S (.Kick username)).2 =
          .ok [⟨.server, .room rid, .Misc "kick_other" [tu.name, r.name] alt⟩]))) ∧
    (tid ∉ r.users →
      ((do_op rid uid S (.Kick username)).1.rmap = insertA S.rmap rid (r.ban tid) ∧
       (do_op rid uid S (.Kick username)).1.umap = S.umap ∧
       (lookupA (do_op rid uid S (.Kick username)).1.rmap rid).map RoomSt.users =
          some r.users ∧
       (∃ alt, (do_op rid uid S (.Kick username)).2 =
          .ok [⟨.server, .user uid, .Info alt⟩]))) := by
  have hnotban' : ¬ (r.is_banned tid = true) := by
    simp [RoomSt.is_banned]
    exact hnotban
  have hredA : tid ∈ r.users →
      do_op rid uid S (.Kick username) =
        ({ S with
            umap := insertA S.umap tid (tu.deliver_msg (.Misc "kick_you" [r.name]
              ((fun rn => s!"You have been kicked from {rn}.") r.name))),
            rmap := insertA (insertA S.rmap rid ((r.ban tid).leave tid)) 0
              ((lob.join tid).enqueue ⟨.server, .room rid, .Misc "join"
                [tu.name, lob.name]
                ((fun tn ln => s!"{tn} joined {ln}.") tu.name lob.name)⟩) },
          .ok [⟨.server, .room rid, .Misc "kick_other" [tu.name, r.name]
            ((fun tn rn => s!"{tn} has been kicked from {rn}.") tu.name r.name)⟩]) := by
    intro htid
    unfold do_op
    rw [hr]
    simp only []
    rw [if_neg (by simp [hop])]
    rw [hcu]
    simp only []
    rw [if_neg hnm]
    rw [hlook]
    simp only []
    rw [if_neg hne]
    rw [htu]
    simp only []
    rw [if_neg hnotban']
    rw [if_neg (not_not_intro (show tid ∈ (r.ban tid).users from htid))]
    rw [lookupA_insertA_ne S.rmap rid _ 0 hrid, hlob]
    rfl
  have hredB : tid ∉ r.users →
      do_op rid uid S (.Kick username) =
        ({ S with rmap := insertA S.rmap rid (r.ban tid) },
          .ok [⟨.server, .user uid, .Info
            ((fun tn rn => s!"You have banned {tn} from {rn}.") tu.name r.name)⟩]) := by
    intro htid
    unfold do_op
    rw [hr]
    simp only []
    rw [if_neg (by simp [hop])]
    rw [hcu]
    simp only []
    rw [if_neg hnm]
    rw [hlook]
    simp only []
    rw [if_neg hne]
    rw [htu]
    simp only []
    rw [if_neg hnotban']
    rw [if_pos (show ¬ tid ∈ (r.ban tid).users from htid)]
  constructor
  · intro htid
    rw [hredA htid]
    refine ⟨?_, ?_, ?_, ?_, ?_, ⟨_, rfl⟩⟩
    · rw [lookupA_insertA_ne _ 0 _ rid (fun h => hrid h.symm), lookupA_insertA_self]
      rfl
    · rw [lookupA_insertA_ne _ 0 _ rid (fun h => hrid h.symm), lookupA_insertA_self]
      rfl
    · rw [lookupA_insertA_ne _ 0 _ rid (fun h => hrid h.symm), lookupA_insertA_self]
      rfl
    · rw [lookupA_insertA_self]
      rfl
    · intro k hk1 hk2
      rw [lookupA_insertA_ne _ 0 _ k (fun h => hk2 h.symm),
        lookupA_insertA_ne _ rid _ k (fun h => hk1 h.symm)]
  · intro htid
    rw [hredB htid]
    refine ⟨rfl, rfl, ?_, ⟨_, rfl⟩⟩
    rw [lookupA_insertA_self]
    rfl

/-- C8 witness: alice (operator of room 1) kicks bob, who is present
in the room; carl sits in the lobby. -/
theorem C8_witness :
    (101 ∈ ({ RoomSt.new 1 "Garden" 100 with users := [100, 101] } : RoomSt).users →
      ((lookupA (do_op 1 100 exStateC8 (.Kick "Bob")).1.rmap 1).map RoomSt.bans =
          some (({ RoomSt.new 1 "Garden" 100 with users := [100, 101] } : RoomSt).bans ++ [101]) ∧
       (lookupA (do_op 1 100 exStateC8 (.Kick "Bob")).1.rmap 1).map RoomSt.invites =
          some (({ RoomSt.new 1 "Garden" 100 with users := [100, 101] } : RoomSt).invites.filter
            (fun n => n ≠ 101)) ∧
       (lookupA (do_op 1 100 exStateC8 (.Kick "Bob")).1.rmap 1).map RoomSt.users =
          some (({ RoomSt.new 1 "Garden" 100 with users := [100, 101] } : RoomSt).users.filter
            (fun n => n ≠ 101)) ∧
       (lookupA (do_op 1 100 exStateC8 (.Kick "Bob")).1.rmap 0).map RoomSt.users =
          some (({ exLobby with users := [102] } : RoomSt).users ++ [101]) ∧
       (∀ k, k ≠ 1 → k ≠ 0 →
          lookupA (do_op 1 100 exStateC8 (.Kick "Bob")).1.rmap k = lookupA exStateC8.rmap k) ∧
       (∃ alt, (do_op 1 100 exStateC8 (.Kick "Bob")).2 =
          .ok [⟨.server, .room 1, .Misc "kick_other"
            [(exUser 101 "bob" 30000).name,
             ({ RoomSt.new 1 "Garden" 100 with users := [100, 101] } : RoomSt).name] alt⟩]))) ∧
    (101 ∉ ({ RoomSt.new 1 "Garden" 100 with users := [100, 101] } : RoomSt).users →
      ((do_op 1 100 exStateC8 (.Kick "Bob")).1.rmap =
          insertA exStateC8.rmap 1
            (({ RoomSt.new 1 "Garden" 100 with users := [100, 101] } : RoomSt).ban 101) ∧
       (do_op 1 100 exStateC8 (.Kick "Bob")).1.umap = exStateC8.umap ∧
       (lookupA (do_op 1 100 exStateC8 (.Kick "Bob")).1.rmap 1).map RoomSt.users =
          some ({ RoomSt.new 1 "Garden" 100 with users := [100, 101] } : RoomSt).users ∧
       (∃ alt, (do_op 1 100 exStateC8 (.Kick "Bob")).2 =
          .ok [⟨.server, .user 100, .Info alt⟩]))) :=
  C8_kick exStateC8 1 100 "Bob" 101
    { RoomSt.new 1 "Garden" 100 with users := [100, 101] }
    { exLobby with users := [102] }
    (exUser 100 "alice" 30000) (exUser 101 "bob" 30000)
    (by decide) (by decide) (by decide) (by decide) (by decide)
    (by decide) (by decide) (by decide) (by decide) (by decide)

/-! ## Invariant algebra for the tick and main-loop theorems -/

theorem isSome_lookupA_insertA {α β : Type} [DecidableEq α] (l : List (α × β))
    (k : α) (v : β) (k' : α) (h : (lookupA l k').isSome = true) :
    (lookupA (insertA l k v) k').isSome = true := by
  by_cases hk : k = k'
  · rw [hk, lookupA_insertA_self]
    rfl
  · rw [lookupA_insertA_ne _ _ _ _ hk]
    exact h

theorem RmapEvo_refl (rid : Nat) (m : List (Nat × RoomSt)) : RmapEvo rid m m := by
  intro A _
  refine ⟨fun r h => ⟨r, h, ⟨[], (List.append_nil _).symm⟩, rfl⟩, fun h r2 h2 => ?_⟩
  rw [h] at h2
  exact absurd h2 (by simp)

theorem RmapEvo_trans {rid : Nat} {m1 m2 m3 : List (Nat × RoomSt)}
    (h12 : RmapEvo rid m1 m2) (h23 : RmapEvo rid m2 m3) : RmapEvo rid m1 m3 := by
  intro A hA
  obtain ⟨g12, n12⟩ := h12 A hA
  obtain ⟨g23, n23⟩ := h23 A hA
  constructor
  · intro r h1
    obtain ⟨r2, h2, ⟨ex, hex⟩, hid⟩ := g12 r h1
    obtain ⟨r3, h3, ⟨ex2, hex2⟩, hid2⟩ := g23 r2 h2
    exact ⟨r3, h3, ⟨ex ++ ex2, by rw [hex2, hex, List.append_assoc]⟩,
      hid2.trans hid⟩
  · intro h1 r3 h3
    cases h2 : lookupA m2 A with
    | none => exact n23 h2 r3 h3
    | some r2 =>
      have hne := n12 h1 r2 h2
      obtain ⟨r3x, h3x, ⟨ex2, hex2⟩, _⟩ := g23 r2 h2
      rw [h3x] at h3
      cases h3
      intro hnil
      rw [hnil] at hex2
      exact hne (List.append_eq_nil.mp hex2.symm).1

theorem HandlerOK_refl (rid : Nat) (S : SState) : HandlerOK rid S S := by
  refine ⟨RmapEvo_refl rid S.rmap, fun r h => by rw [h]; rfl, ?_, id, fun u2 h => .inl h⟩
  intro r2 h2
  exact .inl ⟨r2, h2, rfl, fun _ h => h⟩

theorem HandlerOK_trans {rid : Nat} {S1 S2 S3 : SState}
    (h12 : HandlerOK rid S1 S2) (h23 : HandlerOK rid S2 S3) :
    HandlerOK rid S1 S3 := by
  obtain ⟨e12, p12, b12, c12, u12⟩ := h12
  obtain ⟨e23, p23, b23, c23, u23⟩ := h23
  refine ⟨RmapEvo_trans e12 e23, ?_, ?_, fun h => c23 (c12 h), ?_⟩
  · intro r h1
    have h2 := p12 r h1
    cases hl : lookupA S2.rmap rid with
    | none => rw [hl] at h2; exact absurd h2 (by simp)
    | some r2 => exact p23 r2 hl
  · intro r3 h3
    rcases b23 r3 h3 with ⟨r2, h2, hid2, hsub2⟩ | hnil
    · rcases b12 r2 h2 with ⟨r1, h1, hid1, hsub1⟩ | hnil2
      · exact .inl ⟨r1, h1, hid2.trans hid1, fun u hu => hsub1 u (hsub2 u hu)⟩
      · refine .inr (List.eq_nil_iff_forall_not_mem.mpr fun u hu => ?_)
        have := hsub2 u hu
        rw [hnil2] at this
        exact absurd this (by simp)
    · exact .inr hnil
  · intro u2 h1
    rcases u12 u2 h1 with h2 | hout
    · rcases u23 u2 h2 with h3 | hout2
      · exact .inl h3
      · exact .inr hout2
    · refine .inr fun r3 h3 hmem => ?_
      rcases b23 r3 h3 with ⟨r2, h2, _, hsub⟩ | hnil
      · exact hout r2 h2 (hsub u2 hmem)
      · rw [hnil] at hmem
        exact absurd hmem (by simp)

theorem TickOK_of_HandlerOK {rid : Nat} {S S2 : SState}
    (h : HandlerOK rid S S2) : TickOK rid S S2 :=
  ⟨h.1, h.2.1, h.2.2.2.1⟩

theorem TickOK_refl (rid : Nat) (S : SState) : TickOK rid S S :=
  TickOK_of_HandlerOK (HandlerOK_refl rid S)

theorem TickOK_trans {rid : Nat} {S1 S2 S3 : SState}
    (h12 : TickOK rid S1 S2) (h23 : TickOK rid S2 S3) : TickOK rid S1 S3 := by
  obtain ⟨e12, p12, c12⟩ := h12
  obtain ⟨e23, p23, c23⟩ := h23
  refine ⟨RmapEvo_trans e12 e23, ?_, fun h => c23 (c12 h)⟩
  intro r h1
  have h2 := p12 r h1
  cases hl : lookupA S2.rmap rid with
  | none => rw [hl] at h2; exact absurd h2 (by simp)
  | some r2 => exact p23 r2 hl

theorem MembersKnown_of_HandlerOK {rid : Nat} {S S2 : SState}
    (h : HandlerOK rid S S2) (hm : MembersKnown rid S) : MembersKnown rid S2 := by
  intro r2 h2 u hu
  rcases h.2.2.1 r2 h2 with ⟨r, h1, _, hsub⟩ | hnil
  · have hpre := hm r h1 u (hsub u hu)
    rcases h.2.2.2.2 u hpre with hpost | hout
    · exact hpost
    · exact absurd hu (hout r2 h2)
  · rw [hnil] at hu
    exact absurd hu (by simp)

/-- A state change that leaves both room indexes alone and keeps every
user-map entry present satisfies HandlerOK. -/
theorem handlerOK_of_parts {rid : Nat} {S S2 : SState}
    (hrmap : S2.rmap = S.rmap) (hrstr : S2.rstr = S.rstr)
    (humap : ∀ u, (lookupA S.umap u).isSome = true →
      (lookupA S2.umap u).isSome = true) :
    HandlerOK rid S S2 := by
  refine ⟨by rw [hrmap]; exact RmapEvo_refl rid S.rmap,
    fun r h => by rw [hrmap, h]; rfl, ?_, ?_, fun u2 h => .inl (humap u2 h)⟩
  · intro r2 h2
    rw [hrmap] at h2
    exact .inl ⟨r2, h2, rfl, fun _ h => h⟩
  · intro hc k rid2 hk
    rw [hrstr] at hk
    obtain ⟨room, hroom, hid⟩ := hc k rid2 hk
    exact ⟨room, by rw [hrmap]; exact hroom, hid⟩

/-- A state change that touches the room map only at rid (keeping the
room present, its collapsed name, and a member subset), leaves the
room name index alone, and moves users out of the user map only
according to the HandlerOK user clause, satisfies HandlerOK. -/
theorem handlerOK_rid_update {rid : Nat} {S S2 : SState}
    (hout : ∀ A, A ≠ rid → lookupA S2.rmap A = lookupA S.rmap A)
    (hrid : ∀ r2, lookupA S2.rmap rid = some r2 →
      ∃ r, lookupA S.rmap rid = some r ∧ r2.idstr = r.idstr ∧
        ∀ u2 ∈ r2.users, u2 ∈ r.users)
    (hpres : ∀ r, lookupA S.rmap rid = some r →
      (lookupA S2.rmap rid).isSome = true)
    (hrstr : S2.rstr = S.rstr)
    (humap : ∀ u, (lookupA S.umap u).isSome = true →
      (lookupA S2.umap u).isSome = true ∨
        (∀ r2, lookupA S2.rmap rid = some r2 → u ∉ r2.users)) :
    HandlerOK rid S S2 := by
  refine ⟨?_, hpres, fun r2 h2 => .inl (hrid r2 h2), ?_, humap⟩
  · intro A hA
    rw [hout A hA]
    exact (RmapEvo_refl rid S.rmap A hA)
  · intro hc k rid2 hk
    rw [hrstr] at hk
    obtain ⟨room, hroom, hid⟩ := hc k rid2 hk
    by_cases hB : rid2 = rid
    · subst hB
      have hs := hpres room hroom
      cases hl : lookupA S2.rmap rid2 with
      | none => rw [hl] at hs; exact absurd hs (by simp)
      | some r2 =>
        obtain ⟨r, hr, hid2, _⟩ := hrid r2 hl
        rw [hroom] at hr
        cases hr
        exact ⟨r2, rfl, hid2.trans hid⟩
    · exact ⟨room, by rw [hout rid2 hB]; exact hroom, hid⟩

/-! ## The handlers satisfy HandlerOK -/

theorem do_text_ok (rid uid : Nat) (S : SState) (lines : List String) :
    HandlerOK rid S (do_text rid uid S lines).1 := by
  unfold do_text
  cases h : lookupA S.umap uid <;> exact HandlerOK_refl rid S

theorem do_priv_state (rid uid : Nat) (S : SState) (who text : String) :
    (do_priv rid uid S who text).1 = S := by
  simp only [do_priv]
  repeat' split
  all_goals rfl

theorem do_priv_ok (rid uid : Nat) (S : SState) (who text : String) :
    HandlerOK rid S (do_priv rid uid S who text).1 := by
  rw [do_priv_state]
  exact HandlerOK_refl rid S

theorem do_name_ok (rid uid : Nat) (S : SState) (cfg : ServerConfig)
    (cand : String) : HandlerOK rid S (do_name rid uid S cfg cand).1 := by
  simp only [do_name]
  repeat' split
  all_goals try exact HandlerOK_refl rid S
  · rename_i res heq
    split at heq
    · split at heq
      · cases heq
        exact HandlerOK_refl rid S
      · split at heq
        · cases heq
          exact HandlerOK_refl rid S
        · cases heq
    · cases heq
  · refine handlerOK_of_parts rfl rfl ?_
    intro u h
    exact isSome_lookupA_insertA _ _ _ _ h

theorem do_block_ok (rid uid : Nat) (S : SState) (username : String) :
    HandlerOK rid S (do_block rid uid S username).1 := by
  simp only [do_block]
  repeat' split
  all_goals try exact HandlerOK_refl rid S
  all_goals
    refine handlerOK_of_parts rfl rfl ?_
    intro u h
    exact isSome_lookupA_insertA _ _ _ _ h

theorem do_unblock_ok (rid uid : Nat) (S : SState) (username : String) :
    HandlerOK rid S (do_unblock rid uid S username).1 := by
  simp only [do_unblock]
  repeat' split
  all_goals try exact HandlerOK_refl rid S
  all_goals
    refine handlerOK_of_parts rfl rfl ?_
    intro u h
    exact isSome_lookupA_insertA _ _ _ _ h

theorem do_query_ok (rid uid : Nat) (S : SState) (what arg : String) :
    HandlerOK rid S (do_query rid uid S what arg).1 := by
  simp only [do_query]
  repeat' split
  all_goals try exact HandlerOK_refl rid S
  all_goals
    refine handlerOK_of_parts rfl rfl ?_
    intro u h
    exact isSome_lookupA_insertA _ _ _ _ h

theorem do_logout_ok (rid uid : Nat) (S : SState) (sal : String) :
    HandlerOK rid S (do_logout rid uid S sal).1 := by
  unfold do_logout
  cases hr : lookupA S.rmap rid with
  | none => exact HandlerOK_refl rid S
  | some current_room =>
    simp only []
    cases hu : lookupA S.umap uid with
    | none =>
      simp only []
      refine handlerOK_rid_update ?_ ?_ ?_ rfl ?_
      · intro A hA
        exact lookupA_insertA_ne _ _ _ _ (fun h => hA h.symm)
      · intro r2 h2
        rw [lookupA_insertA_self] at h2
        cases h2
        exact ⟨current_room, hr, rfl, fun u2 hu2 => (List.mem_filter.mp hu2).1⟩
      · intro r _
        rw [lookupA_insertA_self]
        rfl
      · intro u h
        exact .inl h
    | some mu =>
      simp only []
      refine handlerOK_rid_update ?_ ?_ ?_ rfl ?_
      · intro A hA
        rw [lookupA_insertA_ne _ _ _ _ (fun h => hA h.symm),
          lookupA_insertA_ne _ _ _ _ (fun h => hA h.symm)]
      · intro r2 h2
        rw [lookupA_insertA_self] at h2
        cases h2
        exact ⟨current_room, hr, rfl, fun u2 hu2 => (List.mem_filter.mp hu2).1⟩
      · intro r _
        rw [lookupA_insertA_self]
        rfl
      · intro u h
        by_cases huid : u = uid
        · subst huid
          refine .inr fun r2 h2 hmem => ?_
          rw [lookupA_insertA_self] at h2
          cases h2
          have hp := (List.mem_filter.mp hmem).2
          simp at hp
        · left
          rw [lookupA_removeA, if_neg (fun h => huid h.symm)]
          exact h

/-- Replacing the room rid by a room with the same collapsed name and
a subset of the members, while only growing the user map, satisfies
HandlerOK. -/
theorem handlerOK_insert_rid {rid : Nat} {S : SState} {r r2 : RoomSt}
    {umap2 : List (Nat × UserSt)}
    (hr : lookupA S.rmap rid = some r) (hid : r2.idstr = r.idstr)
    (hsub : ∀ u ∈ r2.users, u ∈ r.users)
    (hum : ∀ u, (lookupA S.umap u).isSome = true →
      (lookupA umap2 u).isSome = true) :
    HandlerOK rid S { S with rmap := insertA S.rmap rid r2, umap := umap2 } := by
  refine handlerOK_rid_update ?_ ?_ ?_ rfl ?_
  · intro A hA
    exact lookupA_insertA_ne _ _ _ _ (fun h => hA h.symm)
  · intro r2' h2
    rw [lookupA_insertA_self] at h2
    cases h2
    exact ⟨r, hr, hid, hsub⟩
  · intro r' _
    rw [lookupA_insertA_self]
    rfl
  · intro u h
    exact .inl (hum u h)

/-- Replacing a room other than rid by one with the same collapsed
name and only appended members satisfies HandlerOK. -/
theorem handlerOK_insert_grow {rid B : Nat} {S : SState} {r r2 : RoomSt}
    (hB : lookupA S.rmap B = some r) (hBr : B ≠ rid)
    (hex : ∃ ex, r2.users = r.users ++ ex) (hid : r2.idstr = r.idstr) :
    HandlerOK rid S { S with rmap := insertA S.rmap B r2 } := by
  refine ⟨?_, ?_, ?_, ?_, fun u2 h => .inl h⟩
  · intro A hA
    by_cases hAB : A = B
    · subst hAB
      rw [lookupA_insertA_self]
      constructor
      · intro r' h0
        rw [hB] at h0
        cases h0
        exact ⟨r2, rfl, hex, hid⟩
      · intro h0
        rw [hB] at h0
        cases h0
    · rw [lookupA_insertA_ne _ _ _ _ (fun h => hAB h.symm)]
      exact RmapEvo_refl rid S.rmap A hA
  · intro r' h'
    rw [lookupA_insertA_ne _ _ _ _ hBr, h']
    rfl
  · intro r2' h2
    rw [lookupA_insertA_ne _ _ _ _ hBr] at h2
    exact .inl ⟨r2', h2, rfl, fun _ h => h⟩
  · intro hc k C hk
    obtain ⟨room, hroom, hidr⟩ := hc k C hk
    by_cases hCB : C = B
    · subst hCB
      rw [hB] at hroom
      cases hroom
      exact ⟨r2, lookupA_insertA_self _ _ _, hid.trans hidr⟩
    · exact ⟨room, (lookupA_insertA_ne _ _ _ _ (fun h => hCB h.symm)).trans hroom,
        hidr⟩

theorem do_join_ok (rid uid : Nat) (S : SState) (cfg : ServerConfig)
    (room_name : String) (humap : (lookupA S.umap uid).isSome = true) :
    HandlerOK rid S (do_join rid uid S cfg room_name).1 := by
  obtain ⟨mu, hmu⟩ : ∃ mu, lookupA S.umap uid = some mu := by
    cases h : lookupA S.umap uid with
    | none => rw [h] at humap; exact absurd humap (by simp)
    | some mu => exact ⟨mu, rfl⟩
  simp only [do_join]
  split
  · exact HandlerOK_refl rid S
  split
  · exact HandlerOK_refl rid S
  cases hb : lookupA S.rstr (collapse room_name) with
  | some n =>
    simp only []
    rw [hmu]
    simp only []
    cases ht : lookupA S.rmap n with
    | none => exact HandlerOK_refl rid S
    | some target_room =>
      simp only []
      split
      · exact HandlerOK_refl rid S
      split
      · exact HandlerOK_refl rid S
      split
      · exact HandlerOK_refl rid S
      rename_i hnrid hban hclosed
      rw [lookupA_insertA_ne _ _ _ _ (fun h => hnrid h)]
      cases hcr : lookupA S.rmap rid with
      | none =>
        refine handlerOK_insert_grow ht (fun h => hnrid h) ?_ ?_
        · exact ⟨[uid], rfl⟩
        · rfl
      | some current_room =>
        simp only []
        have h1 : HandlerOK rid S { S with rmap := insertA S.rmap n ((target_room.join uid).enqueue ⟨.server, .room n, .Misc "join" [mu.name, target_room.name] ((fun un rn => s!"{un} joins {rn}.") mu.name target_room.name)⟩) } := by
          refine handlerOK_insert_grow ht (fun h => hnrid h) ?_ ?_
          · exact ⟨[uid], rfl⟩
          · rfl
        refine HandlerOK_trans h1 (handlerOK_insert_rid
          ((lookupA_insertA_ne _ _ _ _ (fun h => hnrid h)).trans hcr) ?_ ?_ ?_)
        · rfl
        · exact fun u2 h2 => (List.mem_filter.mp h2).1
        · exact fun u h => h
  | none =>
    have hfree := first_free_id_not_mem S.rmap
    simp only []
    rw [hmu]
    simp only []
    rw [lookupA_insertA_self]
    simp only []
    rw [lookupA_insertA_self]
    simp only []
    split
    · rename_i hnr
      subst hnr
      refine ⟨?_, ?_, ?_, ?_, fun u2 h => .inl (isSome_lookupA_insertA _ _ _ _ h)⟩
      · intro A hA
        rw [lookupA_insertA_ne _ _ _ _ (fun h => hA h.symm)]
        exact RmapEvo_refl _ S.rmap A hA
      · intro r hrr
        rw [hfree] at hrr
        cases hrr
      · intro r2 h2
        rw [lookupA_insertA_self] at h2
        cases h2
        exact .inr rfl
      · intro hc k C hk
        rw [lookupA_insertA] at hk
        split at hk
        · rename_i hkeq
          cases hk
          exact ⟨_, lookupA_insertA_self _ _ _, hkeq⟩
        · obtain ⟨room, hroom, hidr⟩ := hc k C hk
          by_cases hCf : C = first_free_id S.rmap
          · subst hCf
            rw [hfree] at hroom
            cases hroom
          · exact ⟨room,
              (lookupA_insertA_ne _ _ _ _ (fun h => hCf h.symm)).trans hroom, hidr⟩
    · rename_i hnr
      split
      · rename_i hbanned
        exact absurd hbanned (by simp [RoomSt.new, RoomSt.is_banned])
      split
      · rename_i hclosed2
        exact absurd hclosed2 (by simp [RoomSt.new])
      rw [lookupA_insertA_ne _ _ _ _ (fun h => hnr h),
        lookupA_insertA_ne _ _ _ _ (fun h => hnr h)]
      cases hcr : lookupA S.rmap rid with
      | none =>
        refine ⟨?_, ?_, ?_, ?_, fun u2 h => .inl (isSome_lookupA_insertA _ _ _ _ h)⟩
        · intro A hA
          by_cases hAf : A = first_free_id S.rmap
          · subst hAf
            rw [lookupA_insertA_self]
            constructor
            · intro r h0
              rw [hfree] at h0
              cases h0
            · intro _ r2 h2
              cases h2
              simp [RoomSt.join, RoomSt.enqueue, RoomSt.new]
          · rw [lookupA_insertA_ne _ _ _ _ (fun h => hAf h.symm),
              lookupA_insertA_ne _ _ _ _ (fun h => hAf h.symm)]
            exact RmapEvo_refl rid S.rmap A hA
        · intro r hrr
          rw [hcr] at hrr
          cases hrr
        · intro r2 h2
          rw [lookupA_insertA_ne _ _ _ _ (fun h => hnr h),
            lookupA_insertA_ne _ _ _ _ (fun h => hnr h), hcr] at h2
          cases h2
        · intro hc k C hk
          rw [lookupA_insertA] at hk
          split at hk
          · rename_i hkeq
            cases hk
            exact ⟨_, lookupA_insertA_self _ _ _, hkeq⟩
          · obtain ⟨room, hroom, hidr⟩ := hc k C hk
            by_cases hCf : C = first_free_id S.rmap
            · subst hCf
              rw [hfree] at hroom
              cases hroom
            · exact ⟨room,
                ((lookupA_insertA_ne _ _ _ _ (fun h => hCf h.symm)).trans
                  (lookupA_insertA_ne _ _ _ _ (fun h => hCf h.symm))).trans hroom,
                hidr⟩
      | some current_room =>
        simp only []
        refine ⟨?_, ?_, ?_, ?_, fun u2 h => .inl (isSome_lookupA_insertA _ _ _ _ h)⟩
        · intro A hA
          rw [lookupA_insertA_ne _ _ _ _ (fun h => hA h.symm)]
          by_cases hAf : A = first_free_id S.rmap
          · subst hAf
            rw [lookupA_insertA_self]
            constructor
            · intro r h0
              rw [hfree] at h0
              cases h0
            · intro _ r2 h2
              cases h2
              simp [RoomSt.join, RoomSt.enqueue, RoomSt.new]
          · rw [lookupA_insertA_ne _ _ _ _ (fun h => hAf h.symm),
              lookupA_insertA_ne _ _ _ _ (fun h => hAf h.symm)]
            exact RmapEvo_refl rid S.rmap A hA
        · intro r hrr
          rw [lookupA_insertA_self]
          rfl
        · intro r2 h2
          rw [lookupA_insertA_self] at h2
          cases h2
          exact .inl ⟨current_room, hcr, rfl,
            fun u2 h2' => (List.mem_filter.mp h2').1⟩
        · intro hc k C hk
          rw [lookupA_insertA] at hk
          split at hk
          · rename_i hkeq
            cases hk
            exact ⟨_, (lookupA_insertA_ne _ _ _ _ (fun h => hnr h.symm)).trans
              (lookupA_insertA_self _ _ _), hkeq⟩
          · obtain ⟨room, hroom, hidr⟩ := hc k C hk
            by_cases hCr : C = rid
            · subst hCr
              rw [hcr] at hroom
              cases hroom
              exact ⟨_, lookupA_insertA_self _ _ _, hidr⟩
            · by_cases hCf : C = first_free_id S.rmap
              · subst hCf
                rw [hfree] at hroom
                cases hroom
              · exact ⟨room,
                  ((lookupA_insertA_ne _ _ _ _ (fun h => hCr h.symm)).trans
                    ((lookupA_insertA_ne _ _ _ _ (fun h => hCf h.symm)).trans
                      (lookupA_insertA_ne _ _ _ _ (fun h => hCf h.symm)))).trans
                    hroom, hidr⟩

theorem do_op_ok (rid uid : Nat) (S : SState) (op : RcvOp) :
    HandlerOK rid S (do_op rid uid S op).1 := by
  unfold do_op
  cases hr : lookupA S.rmap rid with
  | none => exact HandlerOK_refl rid S
  | some current_room0 =>
    simp only []
    split
    · exact HandlerOK_refl rid S
    cases hu : lookupA S.umap uid with
    | none => exact HandlerOK_refl rid S
    | some opUser =>
      simp only []
      cases op with
      | Open =>
        simp only []
        split
        · exact handlerOK_insert_rid hr rfl (fun u h => h) (fun u h => h)
        · exact HandlerOK_refl rid S
      | Close =>
        simp only []
        split
        · exact HandlerOK_refl rid S
        · exact handlerOK_insert_rid hr rfl (fun u h => h) (fun u h => h)
      | Give new_name =>
        simp only []
        split
        · exact HandlerOK_refl rid S
        split
        · exact HandlerOK_refl rid S
        split
        · exact HandlerOK_refl rid S
        split
        · exact HandlerOK_refl rid S
        split
        · exact HandlerOK_refl rid S
        · exact handlerOK_insert_rid hr rfl (fun u h => h) (fun u h => h)
      | Invite username =>
        simp only []
        split
        · exact HandlerOK_refl rid S
        split
        · exact HandlerOK_refl rid S
        split
        · exact HandlerOK_refl rid S
        split
        · exact HandlerOK_refl rid S
        split
        · exact HandlerOK_refl rid S
        split
        · exact handlerOK_insert_rid hr rfl (fun u h => h)
            (fun u h => isSome_lookupA_insertA _ _ _ _ h)
        · exact handlerOK_insert_rid hr rfl (fun u h => h)
            (fun u h => isSome_lookupA_insertA _ _ _ _ h)
      | Kick username =>
        simp only []
        split
        · exact HandlerOK_refl rid S
        split
        · exact HandlerOK_refl rid S
        split
        · exact HandlerOK_refl rid S
        split
        · exact HandlerOK_refl rid S
        split
        · exact HandlerOK_refl rid S
        split
        · exact handlerOK_insert_rid hr rfl (fun u h => h) (fun u h => h)
        · rename_i x1 tid hlookup hne x2 tu htu2 hban hnn
          have htid := not_not.mp hnn
          by_cases hr0 : rid = 0
          · subst hr0
            rw [lookupA_insertA_self]
            simp only []
            refine handlerOK_rid_update ?_ ?_ ?_ rfl ?_
            · intro A hA
              rw [lookupA_insertA_ne _ _ _ _ (fun h => hA h.symm),
                lookupA_insertA_ne _ _ _ _ (fun h => hA h.symm)]
            · intro r2 h2
              rw [lookupA_insertA_self] at h2
              cases h2
              refine ⟨current_room0, hr, rfl, fun u2 hu2 => ?_⟩
              rcases List.mem_append.mp hu2 with hf | hone
              · exact (List.mem_filter.mp hf).1
              · rw [List.mem_singleton.mp hone]
                exact htid
            · intro r' _
              rw [lookupA_insertA_self]
              rfl
            · intro u h
              exact .inl (isSome_lookupA_insertA _ _ _ _ h)
          · rw [lookupA_insertA_ne _ _ _ _ hr0]
            cases hl : lookupA S.rmap 0 with
            | none =>
              exact handlerOK_insert_rid hr rfl
                (fun u2 hu2 => (List.mem_filter.mp hu2).1)
                (fun u h => isSome_lookupA_insertA _ _ _ _ h)
            | some lob =>
              simp only []
              refine ⟨?_, ?_, ?_, ?_, ?_⟩
              · intro A hA
                by_cases hA0 : A = 0
                · subst hA0
                  rw [lookupA_insertA_self]
                  constructor
                  · intro r h0
                    rw [hl] at h0
                    cases h0
                    exact ⟨_, rfl, ⟨_, rfl⟩, rfl⟩
                  · intro h0
                    rw [hl] at h0
                    cases h0
                · rw [lookupA_insertA_ne _ _ _ _ (fun h => hA0 h.symm),
                    lookupA_insertA_ne _ _ _ _ (fun h => hA h.symm)]
                  exact RmapEvo_refl rid S.rmap A hA
              · intro r' _
                rw [lookupA_insertA_ne _ _ _ _ (fun h => hr0 h.symm),
                  lookupA_insertA_self]
                rfl
              · intro r2 h2
                rw [lookupA_insertA_ne _ _ _ _ (fun h => hr0 h.symm),
                  lookupA_insertA_self] at h2
                cases h2
                exact .inl ⟨current_room0, hr, rfl,
                  fun u2 hu2 => (List.mem_filter.mp hu2).1⟩
              · intro hc k C hk
                obtain ⟨room, hroom, hid⟩ := hc k C hk
                by_cases hC : C = rid
                · subst hC
                  rw [hr] at hroom
                  cases hroom
                  exact ⟨_, (lookupA_insertA_ne _ _ _ _
                    (fun h => hr0 h.symm)).trans (lookupA_insertA_self _ _ _), hid⟩
                · by_cases hC0 : C = 0
                  · subst hC0
                    rw [hl] at hroom
                    cases hroom
                    exact ⟨_, lookupA_insertA_self _ _ _, hid⟩
                  · refine ⟨room, ?_, hid⟩
                    rw [lookupA_insertA_ne _ _ _ _ (fun h => hC0 h.symm),
                      lookupA_insertA_ne _ _ _ _ (fun h => hC h.symm)]
                    exact hroom
              · intro u2 h
                exact .inl (isSome_lookupA_insertA _ _ _ _ h)

theorem dispatch_ok (cfg : ServerConfig) (rid uid : Nat) (S : SState) (m : Rcvr)
    (humap : (lookupA S.umap uid).isSome = true) :
    HandlerOK rid S (dispatch cfg rid uid S m).1 := by
  cases m with
  | Text who lines => exact do_text_ok rid uid S lines
  | Priv who text => exact do_priv_ok rid uid S who text
  | Name c => exact do_name_ok rid uid S cfg c
  | Join rn => exact do_join_ok rid uid S cfg rn humap
  | Block u => exact do_block_ok rid uid S u
  | Unblock u => exact do_unblock_ok rid uid S u
  | Logout sal => exact do_logout_ok rid uid S sal
  | Query w a => exact do_query_ok rid uid S w a
  | Op op => exact do_op_ok rid uid S op
  | Ping => exact HandlerOK_refl rid S
  | Info i => exact HandlerOK_refl rid S
  | Err e => exact HandlerOK_refl rid S
  | Misc w d a => exact HandlerOK_refl rid S

theorem dispatch_state_ok {cfg : ServerConfig} {rid uid : Nat} {S : SState}
    {m : Rcvr} {S3 : SState} {res : Except String (List Env)}
    (hd : dispatch cfg rid uid S m = (S3, res))
    (humap : (lookupA S.umap uid).isSome = true) :
    HandlerOK rid S S3 := by
  have h0 := dispatch_ok cfg rid uid S m humap
  rw [hd] at h0
  exact h0

theorem memberStep_ok (cfg : ServerConfig) (now : Nat) (net : Nat → SuckInput)
    (rid : Nat) (acc : StepAcc) (uid : Nat) :
    HandlerOK rid acc.1 (memberStep cfg now net rid acc uid).1 := by
  simp only [memberStep]
  cases hu : lookupA acc.1.umap uid with
  | none => exact HandlerOK_refl rid acc.1
  | some u =>
    simp only []
    cases htg : (quotaStep cfg u).try_get (net uid) now with
    | mk o u2 =>
      cases o with
      | none =>
        simp only []
        cases hcd : checkedDur now u2.last_data_time with
        | some x =>
          simp only []
          split
          · refine handlerOK_of_parts rfl rfl ?_
            intro v h
            exact isSome_lookupA_insertA _ _ _ _ h
          split
          · refine handlerOK_of_parts rfl rfl ?_
            intro v h
            exact isSome_lookupA_insertA _ _ _ _ (isSome_lookupA_insertA _ _ _ _ h)
          · refine handlerOK_of_parts rfl rfl ?_
            intro v h
            exact isSome_lookupA_insertA _ _ _ _ h
        | none =>
          refine handlerOK_of_parts rfl rfl ?_
          intro v h
          exact isSome_lookupA_insertA _ _ _ _ h
      | some m =>
        simp only []
        split
        · refine handlerOK_of_parts rfl rfl ?_
          intro v h
          exact isSome_lookupA_insertA _ _ _ _ h
        · by_cases hq : u2.quota_bytes > cfg.byte_limit
          · rw [if_pos hq]
            cases hd : dispatch cfg rid uid { acc.1 with umap := insertA acc.1.umap uid (u2.deliver_msg (.Err "You have exceeded your data quota and your messages will be ignored for a short time.")) } m with
            | mk S3 r3 =>
              have hof : HandlerOK rid acc.1 { acc.1 with umap := insertA acc.1.umap uid (u2.deliver_msg (.Err "You have exceeded your data quota and your messages will be ignored for a short time.")) } := by
                refine handlerOK_of_parts rfl rfl ?_
                intro v h
                exact isSome_lookupA_insertA _ _ _ _ h
              have hcomp := HandlerOK_trans hof
                (dispatch_state_ok hd (by simp [lookupA_insertA_self]))
              cases r3 with
              | ok es => exact hcomp
              | error e => exact hcomp
          · rw [if_neg hq]
            cases hd : dispatch cfg rid uid { acc.1 with umap := insertA acc.1.umap uid u2 } m with
            | mk S3 r3 =>
              have hof : HandlerOK rid acc.1 { acc.1 with umap := insertA acc.1.umap uid u2 } := by
                refine handlerOK_of_parts rfl rfl ?_
                intro v h
                exact isSome_lookupA_insertA _ _ _ _ h
              have hcomp := HandlerOK_trans hof
                (dispatch_state_ok hd (by simp [lookupA_insertA_self]))
              cases r3 with
              | ok es => exact hcomp
              | error e => exact hcomp

theorem foldl_memberStep_ok (cfg : ServerConfig) (now : Nat)
    (net : Nat → SuckInput) (rid : Nat) (l : List Nat) (acc : StepAcc) :
    HandlerOK rid acc.1 (l.foldl (memberStep cfg now net rid) acc).1 := by
  induction l generalizing acc with
  | nil => exact HandlerOK_refl rid acc.1
  | cons x xs ih =>
    exact HandlerOK_trans (memberStep_ok cfg now net rid acc x) (ih _)

theorem tickOK_of_eq {rid : Nat} {S S2 : SState} (hrmap : S2.rmap = S.rmap)
    (hrstr : S2.rstr = S.rstr) : TickOK rid S S2 := by
  refine ⟨by rw [hrmap]; exact RmapEvo_refl rid S.rmap,
    fun r h => by rw [hrmap, h]; rfl, ?_⟩
  intro hc k C hk
  rw [hrstr] at hk
  obtain ⟨room, hroom, hid⟩ := hc k C hk
  exact ⟨room, by rw [hrmap]; exact hroom, hid⟩

theorem logoutPhase_const (rid : Nat) (acc : SState × List Env)
    (p : Nat × String) :
    (logoutPhase rid acc p).1.rmap = acc.1.rmap ∧
      (logoutPhase rid acc p).1.rstr = acc.1.rstr := by
  simp only [logoutPhase]
  cases lookupA acc.1.umap p.1 <;> exact ⟨rfl, rfl⟩

theorem foldl_logoutPhase_tick (rid : Nat) (l : List (Nat × String))
    (acc : SState × List Env) :
    TickOK rid acc.1 (l.foldl (logoutPhase rid) acc).1 := by
  induction l generalizing acc with
  | nil => exact TickOK_refl rid acc.1
  | cons x xs ih =>
    refine TickOK_trans ?_ (ih (logoutPhase rid acc x))
    exact tickOK_of_eq (logoutPhase_const rid acc x).1 (logoutPhase_const rid acc x).2

theorem succession_ok (rid : Nat) (acc : SState × List Env) :
    HandlerOK rid acc.1 (succession rid acc).1 := by
  simp only [succession]
  split
  · cases hr : lookupA acc.1.rmap rid with
    | none => exact HandlerOK_refl rid acc.1
    | some room =>
      simp only []
      split
      · exact HandlerOK_refl rid acc.1
      · cases hh : room.users.head? with
        | none => exact HandlerOK_refl rid acc.1
        | some pnid =>
          simp only []
          cases hpu : lookupA acc.1.umap pnid with
          | none => exact HandlerOK_refl rid acc.1
          | some u =>
            simp only []
            refine handlerOK_insert_rid hr ?_ ?_ ?_
            · rfl
            · exact fun u2 h => h
            · exact fun u2 h => h
  · exact HandlerOK_refl rid acc.1

theorem foldl_umap_presence {γ : Type} {g : List (Nat × UserSt) → γ → List (Nat × UserSt)}
    (hg : ∀ m x v, (lookupA m v).isSome = true → (lookupA (g m x) v).isSome = true) :
    ∀ (l : List γ) (m : List (Nat × UserSt)) (v : Nat),
      (lookupA m v).isSome = true → (lookupA (l.foldl g m) v).isSome = true := by
  intro l
  induction l with
  | nil => intro m v h; exact h
  | cons x xs ih => intro m v h; exact ih (g m x) v (hg m x v h)

theorem deliverToUid_presence (m : List (Nat × UserSt)) (uid : Nat) (env : Env)
    (v : Nat) (h : (lookupA m v).isSome = true) :
    (lookupA (deliverToUid m uid env) v).isSome = true := by
  unfold deliverToUid
  cases lookupA m uid with
  | none => exact h
  | some u => exact isSome_lookupA_insertA _ _ _ _ h

theorem deliver_presence (r : RoomSt) (env : Env) (m : List (Nat × UserSt))
    (v : Nat) (h : (lookupA m v).isSome = true) :
    (lookupA (r.deliver env m) v).isSome = true := by
  unfold RoomSt.deliver
  cases env.dest with
  | user uid => exact deliverToUid_presence m uid env v h
  | server =>
    exact foldl_umap_presence (fun m2 x v2 h2 => deliverToUid_presence m2 x env v2 h2)
      r.users m v h
  | room rid2 =>
    exact foldl_umap_presence (fun m2 x v2 h2 => deliverToUid_presence m2 x env v2 h2)
      r.users m v h
  | all =>
    exact foldl_umap_presence (fun m2 x v2 h2 => deliverToUid_presence m2 x env v2 h2)
      r.users m v h

theorem leave_foldl_sub : ∀ (l : List (Nat × String)) (room : RoomSt) (u : Nat),
    u ∈ (l.foldl (fun r p => r.leave p.1) room).users → u ∈ room.users := by
  intro l
  induction l with
  | nil => intro room u h; exact h
  | cons x xs ih => intro room u h; exact (List.mem_filter.mp (ih _ u h)).1

theorem leave_foldl_idstr : ∀ (l : List (Nat × String)) (room : RoomSt),
    (l.foldl (fun r p => r.leave p.1) room).idstr = room.idstr := by
  intro l
  induction l with
  | nil => intro room; rfl
  | cons x xs ih => intro room; exact ih (room.leave x.1)

theorem foldl_sstate_const {γ : Type} (f : SState → γ → SState)
    (hf : ∀ St x, (f St x).rmap = St.rmap ∧ (f St x).rstr = St.rstr ∧
      ∀ v, (lookupA St.umap v).isSome = true →
        (lookupA (f St x).umap v).isSome = true) :
    ∀ (l : List γ) (St : SState), (l.foldl f St).rmap = St.rmap ∧
      (l.foldl f St).rstr = St.rstr ∧
      ∀ v, (lookupA St.umap v).isSome = true →
        (lookupA (l.foldl f St).umap v).isSome = true := by
  intro l
  induction l with
  | nil => intro St; exact ⟨rfl, rfl, fun v h => h⟩
  | cons x xs ih =>
    intro St
    obtain ⟨h1, h2, h3⟩ := ih (f St x)
    obtain ⟨g1, g2, g3⟩ := hf St x
    exact ⟨h1.trans g1, h2.trans g2, fun v h => h3 v (g3 v h)⟩

theorem nudge_foldl_const (flush : Nat → FlushInput) :
    ∀ (l : List Nat) (St : SState),
      ((l.foldl (fun St uid2 =>
        match lookupA St.umap uid2 with
        | some u => { St with umap := insertA St.umap uid2 (u.nudge (flush uid2)) }
        | none => St) St).rmap = St.rmap ∧
      (l.foldl (fun St uid2 =>
        match lookupA St.umap uid2 with
        | some u => { St with umap := insertA St.umap uid2 (u.nudge (flush uid2)) }
        | none => St) St).rstr = St.rstr ∧
      ∀ v, (lookupA St.umap v).isSome = true →
        (lookupA (l.foldl (fun St uid2 =>
          match lookupA St.umap uid2 with
          | some u => { St with umap := insertA St.umap uid2 (u.nudge (flush uid2)) }
          | none => St) St).umap v).isSome = true) := by
  refine foldl_sstate_const _ ?_
  intro St x
  cases h : lookupA St.umap x with
  | none => exact ⟨rfl, rfl, fun v h2 => h2⟩
  | some u => exact ⟨rfl, rfl, fun v h2 => isSome_lookupA_insertA _ _ _ _ h2⟩

theorem deliveryPhase_ok (rid : Nat) (S : SState) (envs : List Env)
    (logouts : List (Nat × String)) (flush : Nat → FlushInput) :
    HandlerOK rid S (deliveryPhase rid S envs logouts flush) := by
  simp only [deliveryPhase]
  cases hr : lookupA S.rmap rid with
  | none => exact HandlerOK_refl rid S
  | some room =>
    simp only []
    obtain ⟨hcrm, hcrs, hcu⟩ := nudge_foldl_const flush _ _
    refine ⟨?_, ?_, ?_, ?_, ?_⟩
    · intro A hA
      rw [hcrm]
      rw [lookupA_insertA_ne _ _ _ _ (fun h => hA h.symm)]
      exact RmapEvo_refl rid S.rmap A hA
    · intro r' _
      rw [hcrm, lookupA_insertA_self]
      rfl
    · intro r2 h2
      rw [hcrm, lookupA_insertA_self] at h2
      cases h2
      refine .inl ⟨room, hr, ?_, ?_⟩
      · exact leave_foldl_idstr logouts room
      · intro u2 hu2
        exact leave_foldl_sub logouts room u2 hu2
    · intro hc k C hk
      rw [hcrs] at hk
      obtain ⟨room2, hroom2, hid⟩ := hc k C hk
      by_cases hC : C = rid
      · subst hC
        rw [hr] at hroom2
        cases hroom2
        exact ⟨_, (congrArg (fun mm => lookupA mm _) hcrm).trans
          (lookupA_insertA_self _ _ _), (leave_foldl_idstr logouts _).trans hid⟩
      · refine ⟨room2, ?_, hid⟩
        rw [hcrm, lookupA_insertA_ne _ _ _ _ (fun h => hC h.symm)]
        exact hroom2
    · intro u2 h
      refine .inl (hcu u2 ?_)
      refine foldl_umap_presence ?_ envs _ u2 ?_
      · intro m x v h2
        exact deliver_presence _ x m v h2
      · refine foldl_umap_presence ?_ _ _ u2 h
        intro m x v h2
        exact deliver_presence _ x m v h2

theorem process_room_tick (rid now : Nat) (S : SState) (net : Nat → SuckInput)
    (flush : Nat → FlushInput) (cfg : ServerConfig) :
    TickOK rid S (process_room rid now S net flush cfg).2 := by
  simp only [process_room]
  cases hr : lookupA S.rmap rid with
  | none => exact TickOK_refl rid S
  | some r =>
    simp only []
    generalize hacc : r.users.foldl (memberStep cfg now net rid) (S, [], []) = acc
    have h1 := foldl_memberStep_ok cfg now net rid r.users (S, [], [])
    rw [hacc] at h1
    refine TickOK_trans (TickOK_of_HandlerOK h1) ?_
    refine TickOK_trans (foldl_logoutPhase_tick rid acc.2.2 (acc.1, acc.2.1)) ?_
    refine TickOK_trans (TickOK_of_HandlerOK (succession_ok rid _)) ?_
    exact TickOK_of_HandlerOK (deliveryPhase_ok rid _ _ _ flush)

theorem deliveryPhase_nil (rid : Nat) (S : SState) (envs : List Env)
    (flush : Nat → FlushInput) (r2 : RoomSt)
    (h2 : lookupA (deliveryPhase rid S envs [] flush).rmap rid = some r2) :
    ∃ r0, lookupA S.rmap rid = some r0 ∧ r2.users = r0.users ∧ r2.op = r0.op := by
  simp only [deliveryPhase] at h2
  cases hr : lookupA S.rmap rid with
  | none =>
    rw [hr] at h2
    simp only [] at h2
    rw [hr] at h2
    cases h2
  | some room =>
    rw [hr] at h2
    simp only [] at h2
    rw [(nudge_foldl_const flush _ _).1, lookupA_insertA_self] at h2
    cases h2
    exact ⟨room, rfl, rfl, rfl⟩

/-- C1 counterexample: in exStateC1 the operator alice (id 100) of
room 1 is idle past time_to_kick and is force-logged-out by the tick,
while bob (id 101) stays.  The succession step at the end of the tick
runs before the forced logout is removed from the member list, sees
the operator still in it, and does not promote: after process_room
the room has the non-empty member list [101] with operator 100, which
is not an element.  This contradicts the claim that after every
complete execution of process_room a non-empty room's operator is a
member. -/
theorem C1_counterexample :
    (lookupA (process_room 1 30000 exStateC1 (fun _ => .ok [])
        (fun _ => .ok) exCfg).2.rmap 1).map RoomSt.users = some [101] ∧
    (lookupA (process_room 1 30000 exStateC1 (fun _ => .ok [])
        (fun _ => .ok) exCfg).2.rmap 1).map RoomSt.op = some 100 ∧
    ¬ (100 ∈ [101]) := by
  refine ⟨by decide, by decide, by decide⟩

/-- C1 (amended): the operator-succession step runs on the member
list before forced logouts are removed from it, so the claimed
invariant holds for the ticks that force no logout: for every room
other than the lobby whose members are all present in the user map,
if the member loop of process_room collects no forced logouts, then
after the tick a non-empty member list contains the operator id. -/
theorem C1_amended_op_in_members (rid now : Nat) (S : SState)
    (net : Nat → SuckInput) (flush : Nat → FlushInput) (cfg : ServerConfig)
    (r : RoomSt)
    (hrid : rid ≠ 0)
    (hr : lookupA S.rmap rid = some r)
    (hmk : ∀ u ∈ r.users, (lookupA S.umap u).isSome = true)
    (hlog : (r.users.foldl (memberStep cfg now net rid) (S, [], [])).2.2 = []) :
    ∀ r2, lookupA (process_room rid now S net flush cfg).2.rmap rid = some r2 →
      r2.users ≠ [] → r2.op ∈ r2.users := by
  intro r2 h2 hne
  simp only [process_room] at h2
  rw [hr] at h2
  simp only [] at h2
  generalize hacc : r.users.foldl (memberStep cfg now net rid) (S, [], []) = acc
    at h2 hlog
  rw [hlog] at h2
  simp only [List.foldl] at h2
  have hok := foldl_memberStep_ok cfg now net rid r.users (S, [], [])
  rw [hacc] at hok
  have hmk1 : MembersKnown rid acc.1 := by
    refine MembersKnown_of_HandlerOK hok ?_
    intro r' hr' u hu
    rw [hr] at hr'
    cases hr'
    exact hmk u hu
  have hpres := hok.2.1 r hr
  cases hs1 : lookupA acc.1.rmap rid with
  | none =>
    rw [hs1] at hpres
    exact absurd hpres (by simp)
  | some room1 =>
    simp only [succession] at h2
    rw [if_pos hrid, hs1] at h2
    simp only [] at h2
    by_cases hop : room1.op ∈ room1.users
    · rw [if_pos hop] at h2
      obtain ⟨r0, h0, hu, hoeq⟩ := deliveryPhase_nil rid acc.1 acc.2.1 flush r2 h2
      rw [hs1] at h0
      cases h0
      rw [hoeq, hu]
      exact hop
    · rw [if_neg hop] at h2
      cases hh : room1.users.head? with
      | none =>
        rw [hh] at h2
        simp only [] at h2
        obtain ⟨r0, h0, hu, hoeq⟩ := deliveryPhase_nil rid acc.1 acc.2.1 flush r2 h2
        rw [hs1] at h0
        cases h0
        have hnil : room1.users = [] := by
          cases hul : room1.users with
          | nil => rfl
          | cons a t => rw [hul] at hh; cases hh
        rw [hu, hnil] at hne
        exact absurd rfl hne
      | some pnid =>
        rw [hh] at h2
        simp only [] at h2
        have hpm : pnid ∈ room1.users := by
          cases hul : room1.users with
          | nil => rw [hul] at hh; cases hh
          | cons a t =>
            rw [hul] at hh
            cases hh
            exact List.mem_cons_self _ _
        have hsome := hmk1 room1 hs1 pnid hpm
        cases hpu : lookupA acc.1.umap pnid with
        | none =>
          rw [hpu] at hsome
          exact absurd hsome (by simp)
        | some uu =>
          rw [hpu] at h2
          simp only [] at h2
          obtain ⟨r0, h0, hu, hoeq⟩ := deliveryPhase_nil rid _ _ flush r2 h2
          rw [lookupA_insertA_self] at h0
          cases h0
          rw [hoeq, hu]
          exact hpm

/-- C1 witness: the amended theorem at exStateC8's room 1 (alice and
bob, both recently active, no forced logouts this tick): after the
tick the room's operator is in its member list. -/
theorem C1_amended_witness :
    ((lookupA (process_room 1 30000 exStateC8 (fun _ => .ok [])
        (fun _ => .ok) exCfg).2.rmap 1).getD exLobby).op ∈
    ((lookupA (process_room 1 30000 exStateC8 (fun _ => .ok [])
        (fun _ => .ok) exCfg).2.rmap 1).getD exLobby).users :=
  C1_amended_op_in_members 1 30000 exStateC8 (fun _ => .ok []) (fun _ => .ok)
    exCfg { RoomSt.new 1 "Garden" 100 with users := [100, 101] }
    (by decide) (by decide) (by decide) (by decide)
    ((lookupA (process_room 1 30000 exStateC8 (fun _ => .ok [])
        (fun _ => .ok) exCfg).2.rmap 1).getD exLobby)
    (by decide) (by decide)

theorem loopinv_third_step {c : Nat} {l : List Nat} {S S1 : SState}
    (hevo : RmapEvo c S.rmap S1.rmap)
    (hrooms : ∀ A r, A ≠ 0 → lookupA S.rmap A = some r →
      (A ∈ c :: l ∨ r.users ≠ []))
    {A : Nat} {rA : RoomSt} (hA0 : A ≠ 0) (hAc : A ≠ c)
    (hlk : lookupA S1.rmap A = some rA) : A ∈ l ∨ rA.users ≠ [] := by
  cases hsa : lookupA S.rmap A with
  | none => exact .inr ((hevo A hAc).2 hsa rA hlk)
  | some r' =>
    obtain ⟨rA', hlk', ⟨ex, hex⟩, _⟩ := (hevo A hAc).1 r' hsa
    rw [hlk'] at hlk
    cases hlk
    rcases hrooms A r' hA0 hsa with hin | hne
    · rcases List.mem_cons.mp hin with hec | hl
      · exact absurd hec hAc
      · exact .inl hl
    · refine .inr fun hnil => ?_
      rw [hex] at hnil
      exact hne (List.append_eq_nil.mp hnil).1

theorem roomStep_J (cfg : ServerConfig) (ins : IterIn) (c : Nat) (l : List Nat)
    (S : SState) (hinv : LoopInv (c :: l) S) :
    LoopInv l (roomStep cfg ins S c) := by
  obtain ⟨hco, hlob, hrooms⟩ := hinv
  simp only [roomStep]
  generalize hS1 : (process_room c ins.now S (ins.net c) (ins.flush c) cfg).2 = S1
  have htick := process_room_tick c ins.now S (ins.net c) (ins.flush c) cfg
  rw [hS1] at htick
  obtain ⟨hevo, hpres, hcoh⟩ := htick
  have hco1 : RoomsCoherent S1 := hcoh hco
  have hlob1 : (lookupA S1.rmap 0).isSome = true := by
    by_cases hc0 : c = 0
    · subst hc0
      cases h0 : lookupA S.rmap 0 with
      | none => rw [h0] at hlob; exact absurd hlob (by simp)
      | some lr => exact hpres lr h0
    · cases h0 : lookupA S.rmap 0 with
      | none => rw [h0] at hlob; exact absurd hlob (by simp)
      | some lr =>
        obtain ⟨r2, hl2, _, _⟩ := (hevo 0 (fun h => hc0 h.symm)).1 lr h0
        rw [hl2]
        rfl
  split
  · rename_i hc0
    split
    · rename_i rr hlkc
      split
      · rename_i hlen
        refine ⟨?_, ?_, ?_⟩
        · intro k C hk
          rw [lookupA_removeA] at hk
          split at hk
          · cases hk
          · rename_i hkne
            obtain ⟨room, hroom, hid⟩ := hco1 k C hk
            by_cases hCc : C = c
            · subst hCc
              rw [hlkc] at hroom
              cases hroom
              exact absurd hid hkne
            · refine ⟨room, ?_, hid⟩
              rw [lookupA_removeA, if_neg (fun h => hCc h.symm)]
              exact hroom
        · rw [lookupA_removeA, if_neg hc0]
          exact hlob1
        · intro A rA hA0 hlk
          rw [lookupA_removeA] at hlk
          split at hlk
          · cases hlk
          · rename_i hAc
            exact loopinv_third_step hevo hrooms hA0 (fun h => hAc h.symm) hlk
      · rename_i hlen
        refine ⟨hco1, hlob1, ?_⟩
        intro A rA hA0 hlk
        by_cases hAc : A = c
        · subst hAc
          rw [hlkc] at hlk
          cases hlk
          refine .inr fun hnil => hlen ?_
          rw [hnil]
          rfl
        · exact loopinv_third_step hevo hrooms hA0 hAc hlk
    · rename_i hlkc
      refine ⟨hco1, hlob1, ?_⟩
      intro A rA hA0 hlk
      by_cases hAc : A = c
      · subst hAc
        rw [hlkc] at hlk
        cases hlk
      · exact loopinv_third_step hevo hrooms hA0 hAc hlk
  · rename_i hc0
    refine ⟨hco1, hlob1, ?_⟩
    intro A rA hA0 hlk
    have hAc : A ≠ c := fun h => hA0 (h.trans (not_not.mp hc0))
    exact loopinv_third_step hevo hrooms hA0 hAc hlk

theorem foldl_roomStep_J (cfg : ServerConfig) (ins : IterIn) :
    ∀ (l : List Nat) (S : SState), LoopInv l S →
      LoopInv [] (l.foldl (roomStep cfg ins) S) := by
  intro l
  induction l with
  | nil => intro S h; exact h
  | cons c cs ih => intro S h; exact ih _ (roomStep_J cfg ins c cs S h)

theorem acceptUser_good (cfg : ServerConfig) (S : SState)
    (arrival : Option (Nat × String)) (h : GoodRooms S) :
    GoodRooms (acceptUser cfg S arrival) := by
  obtain ⟨hco, hlob, hrooms⟩ := h
  simp only [acceptUser]
  cases arrival with
  | none => exact ⟨hco, hlob, hrooms⟩
  | some p =>
    cases p with
    | mk uid negotiated =>
      simp only []
      cases hl : lookupA S.rmap 0 with
      | none => exact ⟨hco, hlob, hrooms⟩
      | some lobby =>
        simp only []
        refine ⟨?_, ?_, ?_⟩
        · intro k C hk
          obtain ⟨room, hroom, hid⟩ := hco k C hk
          by_cases hC0 : C = 0
          · subst hC0
            rw [hl] at hroom
            cases hroom
            exact ⟨_, lookupA_insertA_self _ _ _, hid⟩
          · exact ⟨room,
              (lookupA_insertA_ne _ _ _ _ (fun h2 => hC0 h2.symm)).trans hroom, hid⟩
        · rw [lookupA_insertA_self]
          rfl
        · intro A rA hA0 hlk
          rw [lookupA_insertA_ne _ _ _ _ (fun h2 => hA0 h2.symm)] at hlk
          exact hrooms A rA hA0 hlk

theorem initState_good (cfg : ServerConfig) : GoodRooms (initState cfg) := by
  refine ⟨?_, ?_, ?_⟩
  · intro k C hk
    simp [initState, lookupA] at hk
  · rfl
  · intro A rA hA0 hlk
    rw [initState] at hlk
    simp only [] at hlk
    rw [lookupA_insertA_ne _ _ _ _ (fun h => hA0 h.symm)] at hlk
    simp [lookupA] at hlk

theorem iterBody_good (cfg : ServerConfig) (S : SState) (ins : IterIn)
    (h : GoodRooms S) : GoodRooms (iterBody cfg S ins) := by
  obtain ⟨hco, hlob, hrooms⟩ := h
  simp only [iterBody]
  refine acceptUser_good cfg _ ins.arrival ?_
  have hstart : LoopInv (keysA S.rmap) S := by
    refine ⟨hco, hlob, ?_⟩
    intro A r hA0 hlk
    exact .inl (mem_keysA_of_lookupA hlk)
  obtain ⟨c1, c2, c3⟩ := foldl_roomStep_J cfg ins (keysA S.rmap) S hstart
  refine ⟨c1, c2, ?_⟩
  intro A r hA0 hlk
  rcases c3 A r hA0 hlk with hin | hne
  · exact absurd hin (List.not_mem_nil A)
  · exact hne

/-- C9: in every reachable dispatcher state, that is at every
iteration boundary of the main loop, the lobby (room id 0) is
present, every other room still present has a non-empty member list
(a room emptied during an iteration is removed by that iteration's
destruction check), and every binding of the room name index points
at a present room whose collapsed name is the bound key — so a
destroyed room is gone from both the id-keyed and the name-keyed
index. -/
theorem C9_empty_rooms_destroyed (cfg : ServerConfig) (S : SState)
    (h : Reachable cfg S) :
    (lookupA S.rmap 0).isSome = true ∧
    (∀ A r, A ≠ 0 → lookupA S.rmap A = some r → r.users ≠ []) ∧
    (∀ k A, lookupA S.rstr k = some A →
      ∃ room, lookupA S.rmap A = some room ∧ room.idstr = k) := by
  induction h with
  | init =>
    obtain ⟨c1, c2, c3⟩ := initState_good cfg
    exact ⟨c2, c3, c1⟩
  | step hS ins ih =>
    obtain ⟨i1, i2, i3⟩ := ih
    obtain ⟨g1, g2, g3⟩ := iterBody_good cfg _ ins ⟨i3, i1, i2⟩
    exact ⟨g2, g3, g1⟩

/-- C9 witness: the theorem at the initial dispatcher state. -/
theorem C9_witness :
    (lookupA (initState exCfg).rmap 0).isSome = true ∧
    (∀ A r, A ≠ 0 → lookupA (initState exCfg).rmap A = some r →
      r.users ≠ []) ∧
    (∀ k A, lookupA (initState exCfg).rstr k = some A →
      ∃ room, lookupA (initState exCfg).rmap A = some room ∧ room.idstr = k) :=
  C9_empty_rooms_destroyed exCfg (initState exCfg) Reachable.init

end Fresh
